import Mathlib

/-!
Verification of the Quantaris engine (a deterministic simultaneous-turn
tactical board game) against its natural-language specification.

The definitions below are a shallow embedding of the TypeScript sources:
`core/types.ts` (data model), `core/state.ts` (state queries),
`actions/validate.ts` (action validation), `resolution/pipeline.ts`
(turn resolution) and `hash/canonical.ts` (canonicalization and hashing).
JavaScript numbers holding game quantities are embedded as `Int`
(all arithmetic in the engine is small-integer exact); 32-bit hash
arithmetic is `Nat` with explicit `% 2^32`.
-/

namespace Quantaris

/-! ## Data model (core/types.ts) -/

/-- Player identifiers: `Player.A = "A"`, `Player.B = "B"`. -/
inductive Player where
  | A
  | B
deriving DecidableEq, Repr

/-- String form of a player id, as interpolated into event/canonical strings. -/
def playerStr : Player → String
  | Player.A => "A"
  | Player.B => "B"

/-- Cardinal movement directions (`Direction` in types.ts). -/
inductive Direction where
  | north
  | east
  | south
  | west
deriving DecidableEq, Repr

/-- The 8-direction set for pulses (`PulseDirection` in types.ts). -/
inductive PulseDir where
  | n
  | e
  | s
  | w
  | ne
  | nw
  | se
  | sw
deriving DecidableEq, Repr

/-- Board position; JS numbers embedded as `Int`. -/
structure Pos where
  x : Int
  y : Int
deriving DecidableEq, Repr

/-- `DIRECTION_DELTAS` from actions/validate.ts. -/
def directionDelta : Direction → Pos
  | Direction.north => { x := 0, y := -1 }
  | Direction.east => { x := 1, y := 0 }
  | Direction.south => { x := 0, y := 1 }
  | Direction.west => { x := -1, y := 0 }

/-- `PULSE_DIRECTION_DELTAS` from actions/validate.ts. -/
def pulseDirectionDelta : PulseDir → Pos
  | PulseDir.n => { x := 0, y := -1 }
  | PulseDir.e => { x := 1, y := 0 }
  | PulseDir.s => { x := 0, y := 1 }
  | PulseDir.w => { x := -1, y := 0 }
  | PulseDir.ne => { x := 1, y := -1 }
  | PulseDir.nw => { x := -1, y := -1 }
  | PulseDir.se => { x := 1, y := 1 }
  | PulseDir.sw => { x := -1, y := 1 }

/-- `applyDirection` from actions/validate.ts. -/
def applyDirection (pos : Pos) (dir : Direction) : Pos :=
  { x := pos.x + (directionDelta dir).x, y := pos.y + (directionDelta dir).y }

/-- `applyPulseDirection` from actions/validate.ts. -/
def applyPulseDirection (pos : Pos) (dir : PulseDir) : Pos :=
  { x := pos.x + (pulseDirectionDelta dir).x, y := pos.y + (pulseDirectionDelta dir).y }

/-- `isDiagonalPulse` from actions/validate.ts (`DIAGONAL_DIRECTIONS`). -/
def isDiagonalPulse : PulseDir → Bool
  | PulseDir.ne => true
  | PulseDir.nw => true
  | PulseDir.se => true
  | PulseDir.sw => true
  | _ => false

/-- `BOARD_SIZE` constant. -/
def BOARD_SIZE : Int := 9

/-- `CORE_HP` constant. -/
def CORE_HP : Int := 5

/-- `QUANTAR_HP` constant. -/
def QUANTAR_HP : Int := 2

/-- `PULSE_DAMAGE` constant. -/
def PULSE_DAMAGE : Int := 1

/-- `SHIELD_REDUCTION` constant. -/
def SHIELD_REDUCTION : Int := 1

/-- `MAX_TURNS` constant. -/
def MAX_TURNS : Int := 50

/-- `isInBounds` from core/state.ts. -/
def isInBounds (p : Pos) : Bool :=
  decide (0 ≤ p.x) && decide (p.x < 9) && decide (0 ≤ p.y) && decide (p.y < 9)

/-- Mobile unit (`Quantar` in types.ts). -/
structure Quantar where
  id : String
  owner : Player
  position : Pos
  hp : Int
deriving DecidableEq, Repr

/-- Stationary objective (`Core` in types.ts). -/
structure Core where
  owner : Player
  position : Pos
  hp : Int
deriving DecidableEq, Repr

/-- Game phase enum (`GamePhase.Playing = "playing"`, `GamePhase.Ended = "ended"`). -/
inductive GamePhase where
  | playing
  | ended
deriving DecidableEq, Repr

/-- Immutable game snapshot (`GameState`); `cores: { A, B }` is embedded as
the two fields `coreA`, `coreB`. -/
structure GameState where
  turn : Int
  phase : GamePhase
  quantars : List Quantar
  coreA : Core
  coreB : Core
  winner : Option Player
deriving DecidableEq, Repr

/-- Tagged action union (`MoveAction | PulseAction | ShieldAction`). -/
inductive Action where
  | move (quantarId : String) (direction : Direction)
  | pulse (quantarId : String) (direction : PulseDir)
  | shield (quantarId : String)
deriving DecidableEq, Repr

/-- The `quantarId` field common to every action variant. -/
def Action.quantarId : Action → String
  | Action.move qid _ => qid
  | Action.pulse qid _ => qid
  | Action.shield qid => qid

/-- Entity kind tags used in events (`EntityType.Quantar = "quantar"`, `.Core = "core"`). -/
inductive EntityKind where
  | quantar
  | core
deriving DecidableEq, Repr

/-- Turn event union (`TurnEvent` in types.ts); `from`/`to` fields are
renamed `origin`/`dest` (`from` is a Lean keyword). -/
inductive TurnEvent where
  | moveApplied (quantarId : String) (origin : Pos) (dest : Pos)
  | moveBlocked (quantarId : String) (origin : Pos) (direction : Direction) (reason : String)
  | pulseFired (quantarId : String) (origin : Pos) (direction : PulseDir)
  | pulseHit (targetId : String) (targetType : EntityKind) (damage : Int)
  | pulseMiss (quantarId : String)
  | shieldActivated (quantarId : String)
  | damageApplied (targetId : String) (damage : Int) (remainingHp : Int)
  | entityDestroyed (entityId : String) (entityType : EntityKind)
  | terminalLoss (loser : Player) (reason : String)
  | gameOver (winner : Player)
  | draw (reason : String)
deriving DecidableEq, Repr

/-- `TurnLog`: the input turn number plus the ordered event list. -/
structure TurnLog where
  turn : Int
  events : List TurnEvent
deriving DecidableEq, Repr

/-- `TurnInput` for `resolveTurn`. -/
structure TurnInput where
  state : GameState
  actionsA : List Action
  actionsB : List Action
deriving DecidableEq, Repr

/-- `TurnResult` returned by `resolveTurn`. -/
structure TurnResult where
  state : GameState
  log : TurnLog
deriving DecidableEq, Repr

/-! ## State queries (core/state.ts) -/

/-- `getQuantar`: first Quantar with the given id, if any. -/
def getQuantar (state : GameState) (id : String) : Option Quantar :=
  state.quantars.find? (fun q => q.id == id)

/-- `getPlayerQuantars`: all Quantars owned by a player. -/
def getPlayerQuantars (state : GameState) (playerId : Player) : List Quantar :=
  state.quantars.filter (fun q => q.owner == playerId)

/-- `getOpponent` from core/state.ts. -/
def getOpponent : Player → Player
  | Player.A => Player.B
  | Player.B => Player.A

/-! ## Action validation (actions/validate.ts)

In the typed embedding an `Action` always carries a recognized tag and a
recognized direction, so the `INVALID_ACTION_TYPE` / `INVALID_DIRECTION`
branches of `validateAction` (which guard against untyped JS values) are
unreachable and have no counterpart here.
-/

/-- `ValidationErrorCode` from actions/validate.ts. -/
inductive VCode where
  | INVALID_ACTION_TYPE
  | INVALID_DIRECTION
  | QUANTAR_NOT_FOUND
  | QUANTAR_NOT_OWNED
  | QUANTAR_DEAD
  | MOVE_OUT_OF_BOUNDS
  | DUPLICATE_QUANTAR_ACTION
  | MISSING_QUANTAR_ACTION
  | GAME_NOT_IN_ACTION_PHASE
deriving DecidableEq, Repr

/-- `ValidationResult`: success marker or error code plus message. -/
inductive VResult where
  | ok
  | err (code : VCode) (msg : String)
deriving DecidableEq, Repr

/-- `validateAction` from actions/validate.ts: existence, ownership,
liveness, then type-specific checks. -/
def validateAction (state : GameState) (action : Action) (playerId : Player) : VResult :=
  match getQuantar state action.quantarId with
  | none =>
      VResult.err VCode.QUANTAR_NOT_FOUND
        ("Quantar " ++ action.quantarId ++ " not found")
  | some quantar =>
      if quantar.owner ≠ playerId then
        VResult.err VCode.QUANTAR_NOT_OWNED
          ("Quantar " ++ action.quantarId ++ " is not owned by player " ++ playerStr playerId)
      else if quantar.hp ≤ 0 then
        VResult.err VCode.QUANTAR_DEAD
          ("Quantar " ++ action.quantarId ++ " is dead")
      else
        match action with
        | Action.move _ direction =>
            let targetPos := applyDirection quantar.position direction
            if isInBounds targetPos then VResult.ok
            else
              VResult.err VCode.MOVE_OUT_OF_BOUNDS "Move would go out of bounds"
        | Action.pulse _ _ => VResult.ok
        | Action.shield _ => VResult.ok

/-- The per-action loop of `validatePlayerActions`: walks the submitted
sequence carrying the set (here: list) of quantar ids already seen,
rejecting a repeat id before validating the action itself. -/
def validateActionsLoop (state : GameState) (playerId : Player) :
    List Action → List String → VResult
  | [], _ => VResult.ok
  | action :: rest, seen =>
      if action.quantarId ∈ seen then
        VResult.err VCode.DUPLICATE_QUANTAR_ACTION
          ("Duplicate action for Quantar " ++ action.quantarId)
      else
        match validateAction state action playerId with
        | VResult.ok => validateActionsLoop state playerId rest (action.quantarId :: seen)
        | VResult.err c m => VResult.err c m

/-- The closing loop of `validatePlayerActions`: every alive Quantar of the
player must appear among the submitted action ids. -/
def checkMissingActions (actionIds : List String) : List Quantar → VResult
  | [] => VResult.ok
  | q :: rest =>
      if q.id ∈ actionIds then checkMissingActions actionIds rest
      else
        VResult.err VCode.MISSING_QUANTAR_ACTION
          ("Missing action for Quantar " ++ q.id)

/-- `validatePlayerActions` from actions/validate.ts. -/
def validatePlayerActions (state : GameState) (actions : List Action)
    (playerId : Player) : VResult :=
  if state.phase ≠ GamePhase.playing then
    VResult.err VCode.GAME_NOT_IN_ACTION_PHASE "Game is not in playing phase"
  else
    match validateActionsLoop state playerId actions [] with
    | VResult.err c m => VResult.err c m
    | VResult.ok =>
        let aliveQuantars :=
          (getPlayerQuantars state playerId).filter (fun q => decide (q.hp > 0))
        checkMissingActions (actions.map Action.quantarId) aliveQuantars

/-! ## Turn resolution (resolution/pipeline.ts)

The pipeline mutates a transient working copy; here every phase is a
function on the working state `RState`, threaded explicitly. JS object
identity (the pipeline mutates the object returned by a `find`) is
rendered as `updateFirst`: update the first list element satisfying the
same predicate the corresponding `find` used. -/

/-- `MutableQuantar` from resolution/pipeline.ts. -/
structure MQuantar where
  id : String
  owner : Player
  position : Pos
  hp : Int
  shielded : Bool
  pendingDamage : Int
deriving DecidableEq, Repr

/-- `MutableCore` from resolution/pipeline.ts. -/
structure MCore where
  owner : Player
  position : Pos
  hp : Int
  pendingDamage : Int
deriving DecidableEq, Repr

/-- `ResolutionState` from resolution/pipeline.ts. -/
structure RState where
  quantars : List MQuantar
  coreA : MCore
  coreB : MCore
  events : List TurnEvent
deriving DecidableEq, Repr

/-- `toMutableQuantar`. -/
def toMutableQuantar (q : Quantar) : MQuantar :=
  { id := q.id, owner := q.owner, position := q.position, hp := q.hp,
    shielded := false, pendingDamage := 0 }

/-- `toMutableCore`. -/
def toMutableCore (c : Core) : MCore :=
  { owner := c.owner, position := c.position, hp := c.hp, pendingDamage := 0 }

/-- `toImmutableQuantar`. -/
def toImmutableQuantar (q : MQuantar) : Quantar :=
  { id := q.id, owner := q.owner, position := q.position, hp := q.hp }

/-- `toImmutableCore`. -/
def toImmutableCore (c : MCore) : Core :=
  { owner := c.owner, position := c.position, hp := c.hp }

/-- `getQuantarById` from resolution/pipeline.ts. -/
def getQuantarById (s : RState) (id : String) : Option MQuantar :=
  s.quantars.find? (fun q => q.id == id)

/-- In-place mutation of the first list element satisfying `p` (the object
a JS `find` over the array returned a reference to). -/
def updateFirst (p : MQuantar → Bool) (f : MQuantar → MQuantar) :
    List MQuantar → List MQuantar
  | [] => []
  | q :: rest => if p q then f q :: rest else q :: updateFirst p f rest

/-- Result of `getEntityAtPosition`: a live Quantar, or one of the two
Cores (identified by its key in `cores`). -/
inductive EntityRef where
  | quant (q : MQuantar)
  | coreOf (p : Player)
deriving DecidableEq, Repr

/-- `getEntityAtPosition` from resolution/pipeline.ts: first live Quantar
at the cell, else Core A by position, else Core B, else nothing. -/
def entityAtPosition (s : RState) (pos : Pos) : Option EntityRef :=
  match s.quantars.find? (fun q => decide (q.hp > 0) && q.position == pos) with
  | some q => some (EntityRef.quant q)
  | none =>
      if s.coreA.position = pos then some (EntityRef.coreOf Player.A)
      else if s.coreB.position = pos then some (EntityRef.coreOf Player.B)
      else none

/-! ### Phase 1: MOVE -/

/-- An entry of `intendedMoves` in `resolveMoves` (the quantar reference is
kept as its id; `action` is kept as its direction). -/
structure IntendedMove where
  qid : String
  origin : Pos
  dest : Pos
  direction : Direction
deriving DecidableEq, Repr

/-- First loop of `resolveMoves`: build the intended-move list from the
Move actions in combined order, dropping unknown/dead quantar references
and emitting `MoveBlocked("out of bounds")` for off-board destinations. -/
def computeIntendedMoves (s : RState) :
    List Action → List IntendedMove × List TurnEvent
  | [] => ([], [])
  | Action.move qid dir :: rest =>
      (match getQuantarById s qid with
      | none => computeIntendedMoves s rest
      | some q =>
          if q.hp ≤ 0 then computeIntendedMoves s rest
          else
            let dest := applyDirection q.position dir
            let r := computeIntendedMoves s rest
            if isInBounds dest then
              ({ qid := q.id, origin := q.position, dest := dest, direction := dir } :: r.1,
               r.2)
            else
              (r.1, TurnEvent.moveBlocked q.id q.position dir "out of bounds" :: r.2))
  | _ :: rest => computeIntendedMoves s rest

/-- The `coreCollision` test of `resolveMoves`. -/
def isCoreBlocked (s : RState) (m : IntendedMove) : Bool :=
  m.dest == s.coreA.position || m.dest == s.coreB.position

/-- The `validMoves` filter of `resolveMoves`: drop (and report) moves onto
either Core's fixed cell. -/
def filterCoreMoves (s : RState) :
    List IntendedMove → List IntendedMove × List TurnEvent
  | [] => ([], [])
  | m :: rest =>
      let r := filterCoreMoves s rest
      if isCoreBlocked s m then
        (r.1, TurnEvent.moveBlocked m.qid m.origin m.direction "blocked by Core" :: r.2)
      else (m :: r.1, r.2)

/-- `destinationCounts` of `resolveMoves`, per destination cell. -/
def destCount (ms : List IntendedMove) (p : Pos) : Nat :=
  ms.countP (fun m => m.dest == p)

/-- `movesByQuantar.get`: a JS `Map` built from a list keeps the last entry
per key. -/
def lookupMove (ms : List IntendedMove) (id : String) : Option IntendedMove :=
  ms.foldl (fun acc m => if m.qid = id then some m else acc) none

/-- Verdict of the `finalMoves` filter for one intended move. -/
inductive MoveCheck where
  | allowed
  | blocked (reason : String)
deriving DecidableEq, Repr

/-- The per-move decision of the `finalMoves` filter in `resolveMoves`:
contested destination, then stationary occupant, then two-cycle swap. -/
def finalMoveCheck (s : RState) (validMoves : List IntendedMove)
    (m : IntendedMove) : MoveCheck :=
  if destCount validMoves m.dest > 1 then
    MoveCheck.blocked "collision with another Quantar"
  else
    match s.quantars.find?
        (fun q => decide (q.hp > 0) && q.id != m.qid && q.position == m.dest) with
    | some occ =>
        (match lookupMove validMoves occ.id with
        | none => MoveCheck.blocked "blocked by stationary Quantar"
        | some om =>
            if om.dest = m.origin then MoveCheck.blocked "swap collision"
            else MoveCheck.allowed)
    | none => MoveCheck.allowed

/-- The `finalMoves` filter of `resolveMoves`, with its blocked-move
events in processing order. -/
def filterFinalMoves (s : RState) (validMoves : List IntendedMove) :
    List IntendedMove → List IntendedMove × List TurnEvent
  | [] => ([], [])
  | m :: rest =>
      let r := filterFinalMoves s validMoves rest
      match finalMoveCheck s validMoves m with
      | MoveCheck.allowed => (m :: r.1, r.2)
      | MoveCheck.blocked reason =>
          (r.1, TurnEvent.moveBlocked m.qid m.origin m.direction reason :: r.2)

/-- The application loop of `resolveMoves`: each surviving move writes its
destination into the (first-found) quantar it references and emits a Move
event. -/
def applyMoves : List IntendedMove → List MQuantar → List MQuantar × List TurnEvent
  | [], qs => (qs, [])
  | m :: rest, qs =>
      let r := applyMoves rest
        (updateFirst (fun q => q.id == m.qid) (fun q => { q with position := m.dest }) qs)
      (r.1, TurnEvent.moveApplied m.qid m.origin m.dest :: r.2)

/-- `resolveMoves` from resolution/pipeline.ts (Phase 1). -/
def resolveMoves (s : RState) (actions : List Action) : RState :=
  let intended := computeIntendedMoves s actions
  let validMoves := filterCoreMoves s intended.1
  let finalMoves := filterFinalMoves s validMoves.1 validMoves.1
  let applied := applyMoves finalMoves.1 s.quantars
  { s with
    quantars := applied.1,
    events := s.events ++ intended.2 ++ validMoves.2 ++ finalMoves.2 ++ applied.2 }

/-! ### Phase 2: SHIELD -/

/-- `resolveShields` from resolution/pipeline.ts (Phase 2). -/
def resolveShields (s : RState) : List Action → RState
  | [] => s
  | Action.shield qid :: rest =>
      (match getQuantarById s qid with
      | none => resolveShields s rest
      | some q =>
          if q.hp ≤ 0 then resolveShields s rest
          else
            resolveShields
              { s with
                quantars := updateFirst (fun r => r.id == qid)
                  (fun r => { r with shielded := true }) s.quantars,
                events := s.events ++ [TurnEvent.shieldActivated q.id] } rest)
  | _ :: rest => resolveShields s rest

/-! ### Phase 3: PULSE -/

/-- The orthogonal-beam `while` loop of `resolvePulses`: step outward,
stop at the first off-board cell (no hit) or the first occupied cell.
The JS loop always terminates (each step moves one cell in a fixed
nonzero direction, so a coordinate eventually leaves `[0, 8]` and the
bounds check breaks); the `fuel` argument only needs to dominate that
step count, which `pulseFuel` below does for every integer start. -/
def traceOrtho (s : RState) (d : PulseDir) : Nat → Pos → Option Pos
  | 0, _ => none
  | fuel + 1, pos =>
      let next := applyPulseDirection pos d
      if isInBounds next then
        match entityAtPosition s next with
        | some _ => some next
        | none => traceOrtho s d fuel next
      else none

/-- Upper bound on the number of steps the orthogonal beam loop can make
from `pos`: once out of bounds it stops, and from in bounds at most
`BOARD_SIZE` in-bounds cells remain in any direction. -/
def pulseFuel (pos : Pos) : Nat := pos.x.natAbs + pos.y.natAbs + 20

/-- The cell `k` steps along the pulse ray from `p` in direction `d`. -/
def rayCell (p : Pos) (d : PulseDir) (k : Nat) : Pos :=
  { x := p.x + k * (pulseDirectionDelta d).x, y := p.y + k * (pulseDirectionDelta d).y }

/-- The hit branch of `resolvePulses`: `hitTarget.entity.pendingDamage +=
PULSE_DAMAGE` on the found entity, plus the PulseHit event (Core target
ids are synthesized as `core_` plus the owner). -/
def applyPulseHit (s : RState) : EntityRef → RState
  | EntityRef.quant q =>
      { s with
        quantars := updateFirst
          (fun r => decide (r.hp > 0) && r.position == q.position)
          (fun r => { r with pendingDamage := r.pendingDamage + PULSE_DAMAGE })
          s.quantars,
        events := s.events ++ [TurnEvent.pulseHit q.id EntityKind.quantar PULSE_DAMAGE] }
  | EntityRef.coreOf Player.A =>
      { s with
        coreA := { s.coreA with pendingDamage := s.coreA.pendingDamage + PULSE_DAMAGE },
        events := s.events ++
          [TurnEvent.pulseHit ("core_" ++ playerStr s.coreA.owner) EntityKind.core PULSE_DAMAGE] }
  | EntityRef.coreOf Player.B =>
      { s with
        coreB := { s.coreB with pendingDamage := s.coreB.pendingDamage + PULSE_DAMAGE },
        events := s.events ++
          [TurnEvent.pulseHit ("core_" ++ playerStr s.coreB.owner) EntityKind.core PULSE_DAMAGE] }

/-- The cell hit by a pulse fired from `origin` in direction `dir`, if
any: diagonal pulses check exactly the range-1 cell, orthogonal pulses
trace the beam. -/
def pulseHitCell (s : RState) (origin : Pos) (dir : PulseDir) : Option Pos :=
  if isDiagonalPulse dir then
    let next := applyPulseDirection origin dir
    if isInBounds next then
      match entityAtPosition s next with
      | some _ => some next
      | none => none
    else none
  else traceOrtho s dir (pulseFuel origin) origin

/-- Processing of a single Pulse action inside `resolvePulses`. -/
def resolvePulseAction (s : RState) (qid : String) (dir : PulseDir) : RState :=
  match getQuantarById s qid with
  | none => s
  | some q =>
      if q.hp ≤ 0 then s
      else
        let s1 := { s with events := s.events ++ [TurnEvent.pulseFired q.id q.position dir] }
        match pulseHitCell s q.position dir with
        | some cell =>
            (match entityAtPosition s cell with
            | some target => applyPulseHit s1 target
            | none => { s1 with events := s1.events ++ [TurnEvent.pulseMiss q.id] })
        | none => { s1 with events := s1.events ++ [TurnEvent.pulseMiss q.id] }

/-- `resolvePulses` from resolution/pipeline.ts (Phase 3). -/
def resolvePulses (s : RState) : List Action → RState
  | [] => s
  | Action.pulse qid dir :: rest => resolvePulses (resolvePulseAction s qid dir) rest
  | _ :: rest => resolvePulses s rest

/-! ### Phase 4: DAMAGE -/

/-- One quantar's step of `applyDamage`: shield reduction floored at 0,
hp decrement, event, pending reset. -/
def damageQuantar (q : MQuantar) : MQuantar × List TurnEvent :=
  if q.pendingDamage > 0 then
    let actual :=
      if q.shielded then max 0 (q.pendingDamage - SHIELD_REDUCTION) else q.pendingDamage
    let q' := { q with hp := q.hp - actual, pendingDamage := 0 }
    (q', [TurnEvent.damageApplied q.id actual q'.hp])
  else (q, [])

/-- The quantar loop of `applyDamage`. -/
def damageQuantars : List MQuantar → List MQuantar × List TurnEvent
  | [] => ([], [])
  | q :: rest =>
      let r := damageQuantars rest
      ((damageQuantar q).1 :: r.1, (damageQuantar q).2 ++ r.2)

/-- One core's step of `applyDamage` (Cores cannot shield). -/
def damageCore (c : MCore) : MCore × List TurnEvent :=
  if c.pendingDamage > 0 then
    let c' := { c with hp := c.hp - c.pendingDamage, pendingDamage := 0 }
    (c', [TurnEvent.damageApplied ("core_" ++ playerStr c.owner) c.pendingDamage c'.hp])
  else (c, [])

/-- `applyDamage` from resolution/pipeline.ts (Phase 4). -/
def applyDamage (s : RState) : RState :=
  { quantars := (damageQuantars s.quantars).1,
    coreA := (damageCore s.coreA).1,
    coreB := (damageCore s.coreB).1,
    events := s.events ++ (damageQuantars s.quantars).2 ++
      (damageCore s.coreA).2 ++ (damageCore s.coreB).2 }

/-! ### Phase 5: CLEANUP -/

/-- EntityDestroyed events for dead quantars, in list order. -/
def destroyedQuantarEvents (qs : List MQuantar) : List TurnEvent :=
  (qs.filter (fun q => decide (q.hp ≤ 0))).map
    (fun q => TurnEvent.entityDestroyed q.id EntityKind.quantar)

/-- EntityDestroyed event for a dead core (Cores stay in the state). -/
def destroyedCoreEvents (c : MCore) : List TurnEvent :=
  if c.hp ≤ 0 then
    [TurnEvent.entityDestroyed ("core_" ++ playerStr c.owner) EntityKind.core]
  else []

/-- `removeDeadEntities` from resolution/pipeline.ts (Phase 5). -/
def removeDeadEntities (s : RState) : RState :=
  { s with
    quantars := s.quantars.filter (fun q => decide (q.hp > 0)),
    events := s.events ++ destroyedQuantarEvents s.quantars ++
      destroyedCoreEvents s.coreA ++ destroyedCoreEvents s.coreB }

/-! ### Phase 6: win/draw detection -/

/-- `WinConditionResult` from resolution/pipeline.ts. -/
structure WinCheck where
  winner : Option Player
  terminalLoss : Option Player
  isDraw : Bool
deriving DecidableEq, Repr

/-- The `quantarsA`/`quantarsB` survivor filters of `checkWinCondition`,
as a count. -/
def aliveCount (s : RState) (p : Player) : Nat :=
  (s.quantars.filter (fun q => q.owner == p && decide (q.hp > 0))).length

/-- `checkWinCondition` from resolution/pipeline.ts: core destruction
first (both → draw, one → opponent wins), then zero-quantar terminal
loss (both → draw, one → opponent wins), else nothing. -/
def checkWinCondition (s : RState) : WinCheck :=
  if s.coreA.hp ≤ 0 ∧ s.coreB.hp ≤ 0 then
    { winner := none, terminalLoss := none, isDraw := true }
  else if s.coreA.hp ≤ 0 then
    { winner := some Player.B, terminalLoss := none, isDraw := false }
  else if s.coreB.hp ≤ 0 then
    { winner := some Player.A, terminalLoss := none, isDraw := false }
  else
    let quantarsA := aliveCount s Player.A
    let quantarsB := aliveCount s Player.B
    if quantarsA = 0 ∧ quantarsB = 0 then
      { winner := none, terminalLoss := none, isDraw := true }
    else if quantarsA = 0 then
      { winner := some Player.B, terminalLoss := some Player.A, isDraw := false }
    else if quantarsB = 0 then
      { winner := some Player.A, terminalLoss := some Player.B, isDraw := false }
    else
      { winner := none, terminalLoss := none, isDraw := false }

/-! ### resolveTurn -/

/-- The working copy `resolveTurn` starts from. -/
def toResolutionState (state : GameState) : RState :=
  { quantars := state.quantars.map toMutableQuantar,
    coreA := toMutableCore state.coreA,
    coreB := toMutableCore state.coreB,
    events := [] }

/-- Phases 1-5 of `resolveTurn` on the combined action list
(`actionsA` first, then `actionsB`). -/
def runPhases (input : TurnInput) : RState :=
  let allActions := input.actionsA ++ input.actionsB
  removeDeadEntities (applyDamage
    (resolvePulses
      (resolveShields
        (resolveMoves (toResolutionState input.state) allActions) allActions)
      allActions))

/-- The trailing event block of `resolveTurn`: TerminalLoss, GameOver,
then a Draw event for mutual destruction or the turn limit. -/
def finalEvents (w : WinCheck) (isMax : Bool) : List TurnEvent :=
  (match w.terminalLoss with
    | some loser => [TurnEvent.terminalLoss loser "no_quantars"]
    | none => []) ++
  (match w.winner with
    | some p => [TurnEvent.gameOver p]
    | none => []) ++
  (if isMax || w.isDraw then
    [TurnEvent.draw (if w.isDraw then "mutual_destruction" else "max_turns")]
  else [])

/-- `resolveTurn` from resolution/pipeline.ts. -/
def resolveTurn (input : TurnInput) : TurnResult :=
  let state := input.state
  let rs := runPhases input
  let w := checkWinCondition rs
  let nextTurn := state.turn + 1
  let isMax : Bool := w.winner.isNone && !w.isDraw && decide (nextTurn ≥ MAX_TURNS)
  let gameEnded : Bool := w.winner.isSome || w.isDraw || isMax
  { state :=
      { turn := nextTurn,
        phase := if gameEnded then GamePhase.ended else GamePhase.playing,
        quantars := rs.quantars.map toImmutableQuantar,
        coreA := toImmutableCore rs.coreA,
        coreB := toImmutableCore rs.coreB,
        winner := w.winner },
    log := { turn := state.turn, events := rs.events ++ finalEvents w isMax } }

/-- The `isMaxTurnsReached` flag computed inside `resolveTurn`. -/
def isMaxOf (input : TurnInput) : Bool :=
  (checkWinCondition (runPhases input)).winner.isNone &&
  !(checkWinCondition (runPhases input)).isDraw &&
  decide (input.state.turn + 1 ≥ MAX_TURNS)

/-- The `gameEnded` flag computed inside `resolveTurn`. -/
def gameEndedOf (input : TurnInput) : Bool :=
  (checkWinCondition (runPhases input)).winner.isSome ||
  (checkWinCondition (runPhases input)).isDraw || isMaxOf input

/-- Well-formedness of an input `GameState`, per the spec's data-model
invariants: distinct ids, live in-bounds Quantars on pairwise-distinct
cells none of which is a Core cell, correctly-owned live Cores on
distinct in-bounds cells, and the Playing phase. -/
def WellFormedState (s : GameState) : Prop :=
  (s.quantars.map Quantar.id).Nodup ∧
  (∀ q ∈ s.quantars, 0 < q.hp) ∧
  (∀ q ∈ s.quantars, isInBounds q.position = true) ∧
  s.quantars.Pairwise (fun a b => a.position ≠ b.position) ∧
  (∀ q ∈ s.quantars, q.position ≠ s.coreA.position ∧ q.position ≠ s.coreB.position) ∧
  isInBounds s.coreA.position = true ∧ isInBounds s.coreB.position = true ∧
  s.coreA.position ≠ s.coreB.position ∧
  s.coreA.owner = Player.A ∧ s.coreB.owner = Player.B ∧
  0 < s.coreA.hp ∧ 0 < s.coreB.hp ∧ s.phase = GamePhase.playing

/-- `createInitialState` from core/state.ts (`INITIAL_POSITIONS`). -/
def createInitialState : GameState :=
  { turn := 1,
    phase := GamePhase.playing,
    quantars := [
      { id := "A1", owner := Player.A, position := { x := 3, y := 6 }, hp := QUANTAR_HP },
      { id := "A2", owner := Player.A, position := { x := 4, y := 6 }, hp := QUANTAR_HP },
      { id := "A3", owner := Player.A, position := { x := 5, y := 6 }, hp := QUANTAR_HP },
      { id := "B1", owner := Player.B, position := { x := 3, y := 2 }, hp := QUANTAR_HP },
      { id := "B2", owner := Player.B, position := { x := 4, y := 2 }, hp := QUANTAR_HP },
      { id := "B3", owner := Player.B, position := { x := 5, y := 2 }, hp := QUANTAR_HP }],
    coreA := { owner := Player.A, position := { x := 4, y := 8 }, hp := CORE_HP },
    coreB := { owner := Player.B, position := { x := 4, y := 0 }, hp := CORE_HP },
    winner := none }

/-! ## Canonicalization and hashing (hash/canonical.ts)

JS strings are embedded as Lean `String`; `charCodeAt` is the code point
(`Char.toNat`), which agrees with UTF-16 code units on the basic
multilingual plane and in particular on every ASCII canonical string the
engine produces. 32-bit JS bit operations are `Nat` arithmetic with an
explicit `% 2^32`: `(h << 5) + h` followed by `^ c` and the final
`>>> 0` denote `Nat.xor (h * 33 % 2^32) c` on unsigned representatives,
because JS `ToInt32` only depends on the value mod `2^32`. -/

/-- Wire form of a movement direction ("N"/"E"/"S"/"W"). -/
def dirStr : Direction → String
  | Direction.north => "N"
  | Direction.east => "E"
  | Direction.south => "S"
  | Direction.west => "W"

/-- Wire form of a pulse direction. -/
def pulseDirStr : PulseDir → String
  | PulseDir.n => "N"
  | PulseDir.e => "E"
  | PulseDir.s => "S"
  | PulseDir.w => "W"
  | PulseDir.ne => "NE"
  | PulseDir.nw => "NW"
  | PulseDir.se => "SE"
  | PulseDir.sw => "SW"

/-- Wire form of a game phase ("playing"/"ended"). -/
def phaseStr : GamePhase → String
  | GamePhase.playing => "playing"
  | GamePhase.ended => "ended"

/-- `serializeQuantar` from hash/canonical.ts. -/
def serializeQuantar (q : Quantar) : String :=
  "Q:" ++ q.id ++ ":" ++ playerStr q.owner ++ ":" ++ toString q.position.x ++ "," ++
    toString q.position.y ++ ":" ++ toString q.hp

/-- `serializeCore` from hash/canonical.ts. -/
def serializeCore (c : Core) : String :=
  "C:" ++ playerStr c.owner ++ ":" ++ toString c.position.x ++ "," ++
    toString c.position.y ++ ":" ++ toString c.hp

/-- `serializeAction` from hash/canonical.ts. -/
def serializeAction : Action → String
  | Action.move qid d => "M:" ++ qid ++ ":" ++ dirStr d
  | Action.pulse qid d => "P:" ++ qid ++ ":" ++ pulseDirStr d
  | Action.shield qid => "S:" ++ qid

/-- Code-point-wise string comparison: the embedding of the
`localeCompare` orderings used by the canonicalizer's sorts (they agree
on the engine's ASCII identifiers). -/
def charListLe : List Char → List Char → Bool
  | [], _ => true
  | _ :: _, [] => false
  | a :: as, b :: bs =>
      if a.toNat < b.toNat then true
      else if b.toNat < a.toNat then false
      else charListLe as bs

/-- `strLe a b`: `a` sorts no later than `b`. -/
def strLe (a b : String) : Bool := charListLe a.data b.data

/-- Insert a quantar into a list sorted by id ascending. -/
def insertById (q : Quantar) : List Quantar → List Quantar
  | [] => [q]
  | r :: rest => if strLe q.id r.id then q :: r :: rest else r :: insertById q rest

/-- The `sort by id` of `canonicalizeState` (`localeCompare` embedded as
code-point order, with which it agrees on the engine's ASCII ids). -/
def sortById (qs : List Quantar) : List Quantar := qs.foldr insertById []

/-- `canonicalizeState` from hash/canonical.ts. -/
def canonicalizeState (state : GameState) : String :=
  let parts :=
    ["T:" ++ toString state.turn,
     "P:" ++ phaseStr state.phase,
     "W:" ++ (match state.winner with | some p => playerStr p | none => "null"),
     serializeCore state.coreA,
     serializeCore state.coreB] ++
    (sortById state.quantars).map serializeQuantar
  String.intercalate "|" parts

/-- Insert an action into a list sorted by quantarId ascending. -/
def insertByQid (a : Action) : List Action → List Action
  | [] => [a]
  | b :: rest => if strLe a.quantarId b.quantarId then a :: b :: rest else b :: insertByQid a rest

/-- `canonicalizeActions` from hash/canonical.ts. -/
def canonicalizeActions (actions : List Action) : String :=
  String.intercalate "|" ((actions.foldr insertByQid []).map serializeAction)

/-- One step of the djb2 loop: `hash = ((hash << 5) + hash) ^ charCode`
under 32-bit semantics. -/
def djb2Step (h : Nat) (c : Char) : Nat :=
  Nat.xor ((h * 33) % 4294967296) c.toNat

/-- `djb2Hash` from hash/canonical.ts (the `>>> 0` is the identity on the
unsigned representative this fold maintains). -/
def djb2Hash (str : String) : Nat :=
  str.data.foldl djb2Step 5381

/-- The characters of JS `Number.prototype.toString(16)`. -/
def hexDigitChar (n : Nat) : Char :=
  "0123456789abcdef".data.getD n '0'

/-- Minimal hex-digit rendering of `n`, most significant digit first
(`n.toString(16)`); the fuel (one per emitted digit) is 8, exact for
every 32-bit hash value. -/
def hexRep : Nat → Nat → List Char → List Char
  | 0, _, acc => acc
  | fuel + 1, n, acc =>
      let acc' := hexDigitChar (n % 16) :: acc
      if n < 16 then acc' else hexRep fuel (n / 16) acc'

/-- `padStart(8, "0")`. -/
def padStart8 (s : String) : String :=
  String.mk (List.replicate (8 - s.length) '0' ++ s.data)

/-- `hashToHex` from hash/canonical.ts. -/
def hashToHex (str : String) : String :=
  padStart8 (String.mk (hexRep 8 (djb2Hash str) []))

/-- `hashState` from hash/canonical.ts. -/
def hashState (state : GameState) : String :=
  hashToHex (canonicalizeState state)

/-- `hashActions` from hash/canonical.ts. -/
def hashActions (actions : List Action) : String :=
  hashToHex (canonicalizeActions actions)

/-- `hashTurn` from hash/canonical.ts. -/
def hashTurn (state : GameState) (actionsA actionsB : List Action) : String :=
  hashToHex (canonicalizeState state ++ "||" ++ canonicalizeActions actionsA ++ "||" ++
    canonicalizeActions actionsB)

/-- `statesEqual` from hash/canonical.ts: equality of canonical forms. -/
def statesEqual (a b : GameState) : Bool :=
  canonicalizeState a == canonicalizeState b

/-! ## Auxiliary classification of events -/

/-- The constructor tag of a turn event. -/
inductive EvKind where
  | moveAppliedK
  | moveBlockedK
  | pulseFiredK
  | pulseHitK
  | pulseMissK
  | shieldActivatedK
  | damageAppliedK
  | entityDestroyedK
  | terminalLossK
  | gameOverK
  | drawK
deriving DecidableEq, Repr

/-- Tag of an event. -/
def evKind : TurnEvent → EvKind
  | TurnEvent.moveApplied _ _ _ => EvKind.moveAppliedK
  | TurnEvent.moveBlocked _ _ _ _ => EvKind.moveBlockedK
  | TurnEvent.pulseFired _ _ _ => EvKind.pulseFiredK
  | TurnEvent.pulseHit _ _ _ => EvKind.pulseHitK
  | TurnEvent.pulseMiss _ => EvKind.pulseMissK
  | TurnEvent.shieldActivated _ => EvKind.shieldActivatedK
  | TurnEvent.damageApplied _ _ _ => EvKind.damageAppliedK
  | TurnEvent.entityDestroyed _ _ => EvKind.entityDestroyedK
  | TurnEvent.terminalLoss _ _ => EvKind.terminalLossK
  | TurnEvent.gameOver _ => EvKind.gameOverK
  | TurnEvent.draw _ => EvKind.drawK

/-- Events the resolution phases (1-5) can emit; the win/draw block of
`resolveTurn` is the only source of the remaining three kinds. -/
def isPhaseKind : EvKind → Bool
  | EvKind.terminalLossK => false
  | EvKind.gameOverK => false
  | EvKind.drawK => false
  | _ => true

/-! ## Supporting lemmas for the hash shape -/

/-- The hex digits JS `toString(16)` can emit. -/
def hexChars : List Char := "0123456789abcdef".data

theorem djb2Step_lt (h : Nat) (c : Char) :
    djb2Step h c < 4294967296 := by
  have hc : c.toNat < 4294967296 := by
    have := c.val.val.isLt
    simpa [Char.toNat, UInt32.toNat, UInt32.size] using this
  have h32 : (4294967296 : Nat) = 2 ^ 32 := by norm_num
  unfold djb2Step
  rw [h32] at hc ⊢
  exact Nat.xor_lt_two_pow (Nat.mod_lt _ (by positivity)) hc

theorem djb2Hash_lt (str : String) : djb2Hash str < 4294967296 := by
  unfold djb2Hash
  generalize str.data = l
  have : ∀ (l : List Char) (h : Nat), h < 4294967296 →
      l.foldl djb2Step h < 4294967296 := by
    intro l
    induction l with
    | nil => intro h hh; simpa using hh
    | cons c rest ih => intro h _hh; exact ih _ (djb2Step_lt h c)
  exact this l 5381 (by norm_num)

theorem hexRep_length (fuel : Nat) :
    ∀ (n : Nat) (acc : List Char), (hexRep fuel n acc).length ≤ fuel + acc.length := by
  induction fuel with
  | zero => intro n acc; simp [hexRep]
  | succ fuel ih =>
      intro n acc
      unfold hexRep
      by_cases h : n < 16
      · simp [h]; omega
      · simp only [h, if_false]
        have := ih (n / 16) (hexDigitChar (n % 16) :: acc)
        simp at this ⊢
        omega

theorem hexRep_chars (fuel : Nat) :
    ∀ (n : Nat) (acc : List Char), (∀ c ∈ acc, c ∈ hexChars) →
      ∀ c ∈ hexRep fuel n acc, c ∈ hexChars := by
  have hd : ∀ k, k < 16 → hexDigitChar k ∈ hexChars := by decide
  induction fuel with
  | zero => intro n acc hacc; simpa [hexRep] using hacc
  | succ fuel ih =>
      intro n acc hacc
      have hacc' : ∀ c ∈ hexDigitChar (n % 16) :: acc, c ∈ hexChars := by
        intro c hc
        rcases List.mem_cons.mp hc with h | h
        · exact h ▸ hd _ (Nat.mod_lt _ (by norm_num))
        · exact hacc c h
      unfold hexRep
      by_cases h : n < 16
      · simpa [h] using hacc'
      · simpa [h] using ih (n / 16) _ hacc'

/-- C10: `hashState` always returns a string of exactly 8 hexadecimal
characters (the 32-bit hash of the canonical form, rendered in hex and
left-padded with zeros), and the same state always yields the same hash. -/
theorem hashState_eight_hex_chars (state : GameState) :
    (hashState state).length = 8 ∧
    (∀ c ∈ (hashState state).data, c ∈ hexChars) ∧
    hashState state = hashState state := by
  refine ⟨?_, ?_, rfl⟩ <;>
  · unfold hashState hashToHex padStart8
    have hlt := djb2Hash_lt (canonicalizeState state)
    have hlen : (hexRep 8 (djb2Hash (canonicalizeState state)) []).length ≤ 8 := by
      simpa using hexRep_length 8 (djb2Hash (canonicalizeState state)) []
    first
    | · show (List.replicate _ _ ++ _).length = 8
        simp [String.length]
        omega
    | · intro c hc
        simp only [String.mk] at hc
        rcases List.mem_append.mp hc with h | h
        · have := List.eq_of_mem_replicate h
          subst this
          decide
        · exact hexRep_chars 8 _ [] (by simp) c h

set_option maxRecDepth 8192 in
/-- C10 witness: the initial state hashes to 8 hex characters, and a
concrete character of the hash is indeed a hex digit. -/
theorem hashState_eight_hex_chars_witness :
    (hashState createInitialState).length = 8 ∧ '0' ∈ hexChars :=
  ⟨(hashState_eight_hex_chars createInitialState).1,
   (hashState_eight_hex_chars createInitialState).2.1 '0' (by decide)⟩

/-- C9: `resolveTurn` always increments the turn counter by exactly one,
and the log carries the input turn number. -/
theorem resolveTurn_turn_mono (input : TurnInput) :
    (resolveTurn input).state.turn = input.state.turn + 1 ∧
    (resolveTurn input).log.turn = input.state.turn :=
  ⟨rfl, rfl⟩

/-! ## Which events each phase can emit -/

theorem evts_computeIntendedMoves (s : RState) (acts : List Action) :
    ∀ e ∈ (computeIntendedMoves s acts).2, evKind e = EvKind.moveBlockedK := by
  induction acts with
  | nil => intro e he; simp [computeIntendedMoves] at he
  | cons a rest ih =>
      intro e he
      cases a with
      | move qid dir =>
          simp only [computeIntendedMoves] at he
          cases hq : getQuantarById s qid with
          | none => rw [hq] at he; exact ih e he
          | some q =>
              simp only [hq] at he
              by_cases hhp : q.hp ≤ 0
              · rw [if_pos hhp] at he; exact ih e he
              · rw [if_neg hhp] at he
                cases hb : isInBounds (applyDirection q.position dir) with
                | true => simp only [hb, if_true] at he; exact ih e he
                | false =>
                    simp only [hb, Bool.false_eq_true, if_false] at he
                    rcases List.mem_cons.mp he with h | h
                    · subst h; rfl
                    · exact ih e h
      | pulse qid dir => simp only [computeIntendedMoves] at he; exact ih e he
      | shield qid => simp only [computeIntendedMoves] at he; exact ih e he

theorem evts_filterCoreMoves (s : RState) (ms : List IntendedMove) :
    ∀ e ∈ (filterCoreMoves s ms).2, evKind e = EvKind.moveBlockedK := by
  induction ms with
  | nil => intro e he; simp [filterCoreMoves] at he
  | cons m rest ih =>
      intro e he
      simp only [filterCoreMoves] at he
      cases hb : isCoreBlocked s m with
      | true =>
          simp only [hb, if_true] at he
          rcases List.mem_cons.mp he with h | h
          · subst h; rfl
          · exact ih e h
      | false => simp only [hb, Bool.false_eq_true, if_false] at he; exact ih e he

theorem evts_filterFinalMoves (s : RState) (validMoves ms : List IntendedMove) :
    ∀ e ∈ (filterFinalMoves s validMoves ms).2, evKind e = EvKind.moveBlockedK := by
  induction ms with
  | nil => intro e he; simp [filterFinalMoves] at he
  | cons m rest ih =>
      intro e he
      simp only [filterFinalMoves] at he
      cases hc : finalMoveCheck s validMoves m with
      | allowed => rw [hc] at he; exact ih e he
      | blocked reason =>
          rw [hc] at he
          rcases List.mem_cons.mp he with h | h
          · subst h; rfl
          · exact ih e h

theorem evts_applyMoves (ms : List IntendedMove) :
    ∀ (qs : List MQuantar), ∀ e ∈ (applyMoves ms qs).2, evKind e = EvKind.moveAppliedK := by
  induction ms with
  | nil => intro qs e he; simp [applyMoves] at he
  | cons m rest ih =>
      intro qs e he
      simp only [applyMoves] at he
      rcases List.mem_cons.mp he with h | h
      · subst h; rfl
      · exact ih _ e h

theorem evts_resolveMoves (s : RState) (acts : List Action) :
    ∀ e ∈ (resolveMoves s acts).events, e ∈ s.events ∨ isPhaseKind (evKind e) = true := by
  intro e he
  simp only [resolveMoves, List.append_assoc, List.mem_append] at he
  rcases he with h | h | h | h | h
  · exact Or.inl h
  · exact Or.inr (by rw [evts_computeIntendedMoves s acts e h]; rfl)
  · exact Or.inr (by rw [evts_filterCoreMoves s _ e h]; rfl)
  · exact Or.inr (by rw [evts_filterFinalMoves s _ _ e h]; rfl)
  · exact Or.inr (by rw [evts_applyMoves _ _ e h]; rfl)

theorem evts_resolveShields (acts : List Action) :
    ∀ (s : RState), ∀ e ∈ (resolveShields s acts).events,
      e ∈ s.events ∨ evKind e = EvKind.shieldActivatedK := by
  induction acts with
  | nil => intro s e he; exact Or.inl he
  | cons a rest ih =>
      intro s e he
      cases a with
      | move qid dir => exact ih s e he
      | pulse qid dir => exact ih s e he
      | shield qid =>
          simp only [resolveShields] at he
          cases hq : getQuantarById s qid with
          | none => rw [hq] at he; exact ih s e he
          | some q =>
              simp only [hq] at he
              by_cases hhp : q.hp ≤ 0
              · rw [if_pos hhp] at he; exact ih s e he
              · rw [if_neg hhp] at he
                rcases ih _ e he with h | h
                · simp only [List.mem_append, List.mem_singleton] at h
                  rcases h with h | h
                  · exact Or.inl h
                  · subst h; exact Or.inr rfl
                · exact Or.inr h

theorem evts_applyPulseHit (s : RState) (t : EntityRef) :
    ∀ e ∈ (applyPulseHit s t).events, e ∈ s.events ∨ evKind e = EvKind.pulseHitK := by
  intro e he
  cases t with
  | quant q =>
      simp only [applyPulseHit, List.mem_append, List.mem_singleton] at he
      rcases he with h | h
      · exact Or.inl h
      · subst h; exact Or.inr rfl
  | coreOf p =>
      cases p <;>
      · simp only [applyPulseHit, List.mem_append, List.mem_singleton] at he
        rcases he with h | h
        · exact Or.inl h
        · subst h; exact Or.inr rfl

theorem evts_resolvePulseAction (s : RState) (qid : String) (dir : PulseDir) :
    ∀ e ∈ (resolvePulseAction s qid dir).events,
      e ∈ s.events ∨ evKind e = EvKind.pulseFiredK ∨ evKind e = EvKind.pulseHitK ∨
        evKind e = EvKind.pulseMissK := by
  intro e he
  simp only [resolvePulseAction] at he
  cases hq : getQuantarById s qid with
  | none => rw [hq] at he; exact Or.inl he
  | some q =>
      simp only [hq] at he
      by_cases hhp : q.hp ≤ 0
      · rw [if_pos hhp] at he; exact Or.inl he
      · rw [if_neg hhp] at he
        have base :
            ∀ x ∈ (s.events ++ [TurnEvent.pulseFired q.id q.position dir] : List TurnEvent),
              x ∈ s.events ∨ evKind x = EvKind.pulseFiredK := by
          intro x hx
          rcases List.mem_append.mp hx with h | h
          · exact Or.inl h
          · rw [List.mem_singleton.mp h]; exact Or.inr rfl
        cases hcell : pulseHitCell s q.position dir with
        | some cell =>
            simp only [hcell] at he
            cases ht : entityAtPosition s cell with
            | some target =>
                simp only [ht] at he
                rcases evts_applyPulseHit _ target e he with h | h
                · rcases base e h with h' | h'
                  · exact Or.inl h'
                  · exact Or.inr (Or.inl h')
                · exact Or.inr (Or.inr (Or.inl h))
            | none =>
                simp only [ht] at he
                simp only [List.mem_append, List.mem_singleton] at he
                rcases he with (h | h) | h
                · exact Or.inl h
                · rw [List.mem_singleton.mp (List.mem_singleton.mpr h)]
                  exact Or.inr (Or.inl rfl)
                · subst h; exact Or.inr (Or.inr (Or.inr rfl))
        | none =>
            simp only [hcell] at he
            simp only [List.mem_append, List.mem_singleton] at he
            rcases he with (h | h) | h
            · exact Or.inl h
            · subst h; exact Or.inr (Or.inl rfl)
            · subst h; exact Or.inr (Or.inr (Or.inr rfl))

theorem evts_resolvePulses (acts : List Action) :
    ∀ (s : RState), ∀ e ∈ (resolvePulses s acts).events,
      e ∈ s.events ∨ evKind e = EvKind.pulseFiredK ∨ evKind e = EvKind.pulseHitK ∨
        evKind e = EvKind.pulseMissK := by
  induction acts with
  | nil => intro s e he; exact Or.inl he
  | cons a rest ih =>
      intro s e he
      cases a with
      | move qid dir => exact ih s e he
      | shield qid => exact ih s e he
      | pulse qid dir =>
          simp only [resolvePulses] at he
          rcases ih _ e he with h | h
          · exact evts_resolvePulseAction s qid dir e h
          · exact Or.inr h

theorem evts_damageQuantars (qs : List MQuantar) :
    ∀ e ∈ (damageQuantars qs).2, evKind e = EvKind.damageAppliedK := by
  induction qs with
  | nil => intro e he; simp [damageQuantars] at he
  | cons q rest ih =>
      intro e he
      simp only [damageQuantars, List.mem_append] at he
      rcases he with h | h
      · simp only [damageQuantar] at h
        by_cases hp : q.pendingDamage > 0
        · rw [if_pos hp] at h
          rw [List.mem_singleton.mp h]; rfl
        · rw [if_neg hp] at h; simp at h
      · exact ih e h

theorem evts_damageCore (c : MCore) :
    ∀ e ∈ (damageCore c).2, evKind e = EvKind.damageAppliedK := by
  intro e he
  simp only [damageCore] at he
  by_cases hp : c.pendingDamage > 0
  · rw [if_pos hp] at he
    rw [List.mem_singleton.mp he]; rfl
  · rw [if_neg hp] at he; simp at he

theorem evts_applyDamage (s : RState) :
    ∀ e ∈ (applyDamage s).events, e ∈ s.events ∨ evKind e = EvKind.damageAppliedK := by
  intro e he
  simp only [applyDamage, List.append_assoc, List.mem_append] at he
  rcases he with h | h | h | h
  · exact Or.inl h
  · exact Or.inr (evts_damageQuantars _ e h)
  · exact Or.inr (evts_damageCore _ e h)
  · exact Or.inr (evts_damageCore _ e h)

theorem evts_removeDeadEntities (s : RState) :
    ∀ e ∈ (removeDeadEntities s).events,
      e ∈ s.events ∨ evKind e = EvKind.entityDestroyedK := by
  intro e he
  simp only [removeDeadEntities, List.append_assoc, List.mem_append] at he
  rcases he with h | h | h | h
  · exact Or.inl h
  · simp only [destroyedQuantarEvents, List.mem_map] at h
    rcases h with ⟨q, _, hq⟩
    rw [← hq]; exact Or.inr rfl
  · simp only [destroyedCoreEvents] at h
    by_cases hp : s.coreA.hp ≤ 0
    · rw [if_pos hp] at h
      rw [List.mem_singleton.mp h]; exact Or.inr rfl
    · rw [if_neg hp] at h; simp at h
  · simp only [destroyedCoreEvents] at h
    by_cases hp : s.coreB.hp ≤ 0
    · rw [if_pos hp] at h
      rw [List.mem_singleton.mp h]; exact Or.inr rfl
    · rw [if_neg hp] at h; simp at h

/-- Phases 1-5 only emit phase events: no TerminalLoss, GameOver or Draw
event originates anywhere but the final block of `resolveTurn`. -/
theorem evts_runPhases (input : TurnInput) :
    ∀ e ∈ (runPhases input).events, isPhaseKind (evKind e) = true := by
  intro e he
  simp only [runPhases] at he
  rcases evts_removeDeadEntities _ e he with h | h
  swap
  · rw [h]; rfl
  rcases evts_applyDamage _ e h with h | h
  swap
  · rw [h]; rfl
  rcases evts_resolvePulses _ _ e h with h | h | h | h
  · rcases evts_resolveShields _ _ e h with h' | h'
    · rcases evts_resolveMoves _ _ e h' with h'' | h''
      · simp [toResolutionState] at h''
      · exact h''
    · rw [h']; rfl
  · rw [h]; rfl
  · rw [h]; rfl
  · rw [h]; rfl

/-! ## Win/draw detection (C1) and the turn limit (C7) -/

theorem resolveTurn_winner_eq (input : TurnInput) :
    (resolveTurn input).state.winner = (checkWinCondition (runPhases input)).winner := rfl

theorem resolveTurn_phase_eq (input : TurnInput) :
    (resolveTurn input).state.phase =
      (if gameEndedOf input then GamePhase.ended else GamePhase.playing) := rfl

theorem resolveTurn_log_events_eq (input : TurnInput) :
    (resolveTurn input).log.events =
      (runPhases input).events ++
        finalEvents (checkWinCondition (runPhases input)) (isMaxOf input) := rfl

theorem terminalLoss_not_in_phases (input : TurnInput) (l : Player) (r : String) :
    TurnEvent.terminalLoss l r ∉ (runPhases input).events := by
  intro h
  have := evts_runPhases input _ h
  simp [evKind, isPhaseKind] at this

theorem gameOver_not_in_phases (input : TurnInput) (p : Player) :
    TurnEvent.gameOver p ∉ (runPhases input).events := by
  intro h
  have := evts_runPhases input _ h
  simp [evKind, isPhaseKind] at this

theorem draw_not_in_phases (input : TurnInput) (r : String) :
    TurnEvent.draw r ∉ (runPhases input).events := by
  intro h
  have := evts_runPhases input _ h
  simp [evKind, isPhaseKind] at this

theorem winner_none_terminalLoss_none (s : RState) :
    (checkWinCondition s).winner = none → (checkWinCondition s).terminalLoss = none := by
  intro h
  unfold checkWinCondition at h ⊢
  by_cases h1 : s.coreA.hp ≤ 0 ∧ s.coreB.hp ≤ 0
  · simp [h1]
  · by_cases h2 : s.coreA.hp ≤ 0
    · have h3 : ¬s.coreB.hp ≤ 0 := fun hb => h1 ⟨h2, hb⟩
      simp [h1, h2, h3] at h
    · by_cases h3 : s.coreB.hp ≤ 0
      · simp [h1, h2, h3] at h
      · by_cases h4 : aliveCount s Player.A = 0 ∧ aliveCount s Player.B = 0
        · simp [h1, h2, h3, h4]
        · by_cases h5 : aliveCount s Player.A = 0
          · have h6 : ¬aliveCount s Player.B = 0 := fun hb => h4 ⟨h5, hb⟩
            simp [h1, h2, h3, h4, h5, h6] at h
          · by_cases h6 : aliveCount s Player.B = 0
            · simp [h1, h2, h3, h4, h5, h6] at h
            · simp [h1, h2, h3, h4, h5, h6]

/-- C1: win/draw detection after resolution follows the strict precedence
of `checkWinCondition`: both Cores destroyed → draw with no TerminalLoss
event; exactly one Core destroyed → the opponent wins with a GameOver
event regardless of surviving Quantar counts; otherwise both sides out of
Quantars → draw; exactly one side out of Quantars → the opponent wins and
the log ends with TerminalLoss(loser, "no_quantars") followed by
GameOver(winner); otherwise no winner this turn. -/
theorem resolveTurn_win_draw_precedence (input : TurnInput) :
    ((runPhases input).coreA.hp ≤ 0 ∧ (runPhases input).coreB.hp ≤ 0 →
      (resolveTurn input).state.winner = none ∧
      TurnEvent.draw "mutual_destruction" ∈ (resolveTurn input).log.events ∧
      ∀ l r, TurnEvent.terminalLoss l r ∉ (resolveTurn input).log.events) ∧
    ((runPhases input).coreA.hp ≤ 0 ∧ 0 < (runPhases input).coreB.hp →
      (resolveTurn input).state.winner = some Player.B ∧
      TurnEvent.gameOver Player.B ∈ (resolveTurn input).log.events) ∧
    (0 < (runPhases input).coreA.hp ∧ (runPhases input).coreB.hp ≤ 0 →
      (resolveTurn input).state.winner = some Player.A ∧
      TurnEvent.gameOver Player.A ∈ (resolveTurn input).log.events) ∧
    (0 < (runPhases input).coreA.hp ∧ 0 < (runPhases input).coreB.hp ∧
        aliveCount (runPhases input) Player.A = 0 ∧
        aliveCount (runPhases input) Player.B = 0 →
      (resolveTurn input).state.winner = none ∧
      TurnEvent.draw "mutual_destruction" ∈ (resolveTurn input).log.events ∧
      ∀ l r, TurnEvent.terminalLoss l r ∉ (resolveTurn input).log.events) ∧
    (0 < (runPhases input).coreA.hp ∧ 0 < (runPhases input).coreB.hp ∧
        aliveCount (runPhases input) Player.A = 0 ∧
        0 < aliveCount (runPhases input) Player.B →
      (resolveTurn input).state.winner = some Player.B ∧
      (resolveTurn input).log.events =
        (runPhases input).events ++
          [TurnEvent.terminalLoss Player.A "no_quantars", TurnEvent.gameOver Player.B]) ∧
    (0 < (runPhases input).coreA.hp ∧ 0 < (runPhases input).coreB.hp ∧
        0 < aliveCount (runPhases input) Player.A ∧
        aliveCount (runPhases input) Player.B = 0 →
      (resolveTurn input).state.winner = some Player.A ∧
      (resolveTurn input).log.events =
        (runPhases input).events ++
          [TurnEvent.terminalLoss Player.B "no_quantars", TurnEvent.gameOver Player.A]) ∧
    (0 < (runPhases input).coreA.hp ∧ 0 < (runPhases input).coreB.hp ∧
        0 < aliveCount (runPhases input) Player.A ∧
        0 < aliveCount (runPhases input) Player.B →
      (resolveTurn input).state.winner = none ∧
      ∀ p, TurnEvent.gameOver p ∉ (resolveTurn input).log.events) := by
  refine ⟨?_, ?_, ?_, ?_, ?_, ?_, ?_⟩
  · rintro ⟨ha, hb⟩
    have hw : checkWinCondition (runPhases input) =
        { winner := none, terminalLoss := none, isDraw := true } := by
      unfold checkWinCondition
      rw [if_pos ⟨ha, hb⟩]
    refine ⟨by rw [resolveTurn_winner_eq, hw], ?_, ?_⟩
    · rw [resolveTurn_log_events_eq, hw]
      simp [finalEvents]
    · intro l r hmem
      rw [resolveTurn_log_events_eq, hw] at hmem
      rcases List.mem_append.mp hmem with h | h
      · exact terminalLoss_not_in_phases input l r h
      · simp [finalEvents] at h
  · rintro ⟨ha, hb⟩
    have hw : checkWinCondition (runPhases input) =
        { winner := some Player.B, terminalLoss := none, isDraw := false } := by
      unfold checkWinCondition
      rw [if_neg (by omega), if_pos ha]
    refine ⟨by rw [resolveTurn_winner_eq, hw], ?_⟩
    rw [resolveTurn_log_events_eq, hw]
    simp [finalEvents]
  · rintro ⟨ha, hb⟩
    have hw : checkWinCondition (runPhases input) =
        { winner := some Player.A, terminalLoss := none, isDraw := false } := by
      unfold checkWinCondition
      rw [if_neg (by omega), if_neg (by omega), if_pos hb]
    refine ⟨by rw [resolveTurn_winner_eq, hw], ?_⟩
    rw [resolveTurn_log_events_eq, hw]
    simp [finalEvents]
  · rintro ⟨ha, hb, hqa, hqb⟩
    have hw : checkWinCondition (runPhases input) =
        { winner := none, terminalLoss := none, isDraw := true } := by
      unfold checkWinCondition
      rw [if_neg (by omega), if_neg (by omega), if_neg (by omega), if_pos ⟨hqa, hqb⟩]
    refine ⟨by rw [resolveTurn_winner_eq, hw], ?_, ?_⟩
    · rw [resolveTurn_log_events_eq, hw]
      simp [finalEvents]
    · intro l r hmem
      rw [resolveTurn_log_events_eq, hw] at hmem
      rcases List.mem_append.mp hmem with h | h
      · exact terminalLoss_not_in_phases input l r h
      · simp [finalEvents] at h
  · rintro ⟨ha, hb, hqa, hqb⟩
    have hw : checkWinCondition (runPhases input) =
        { winner := some Player.B, terminalLoss := some Player.A, isDraw := false } := by
      unfold checkWinCondition
      rw [if_neg (by omega), if_neg (by omega), if_neg (by omega),
        if_neg (by omega), if_pos hqa]
    refine ⟨by rw [resolveTurn_winner_eq, hw], ?_⟩
    rw [resolveTurn_log_events_eq, hw]
    simp [finalEvents, isMaxOf, hw]
  · rintro ⟨ha, hb, hqa, hqb⟩
    have hw : checkWinCondition (runPhases input) =
        { winner := some Player.A, terminalLoss := some Player.B, isDraw := false } := by
      unfold checkWinCondition
      rw [if_neg (by omega), if_neg (by omega), if_neg (by omega),
        if_neg (by omega), if_neg (by omega), if_pos hqb]
    refine ⟨by rw [resolveTurn_winner_eq, hw], ?_⟩
    rw [resolveTurn_log_events_eq, hw]
    simp [finalEvents, isMaxOf, hw]
  · rintro ⟨ha, hb, hqa, hqb⟩
    have hw : checkWinCondition (runPhases input) =
        { winner := none, terminalLoss := none, isDraw := false } := by
      unfold checkWinCondition
      rw [if_neg (by omega), if_neg (by omega), if_neg (by omega),
        if_neg (by omega), if_neg (by omega), if_neg (by omega)]
    refine ⟨by rw [resolveTurn_winner_eq, hw], ?_⟩
    intro p hmem
    rw [resolveTurn_log_events_eq, hw] at hmem
    rcases List.mem_append.mp hmem with h | h
    · exact gameOver_not_in_phases input p h
    · cases hm : isMaxOf input <;> simp [finalEvents, hm] at h

/-- Input for the C1 witness: the initial state with no actions. -/
def c1Input : TurnInput :=
  { state := createInitialState, actionsA := [], actionsB := [] }

/-- C1 witness: with both Cores and both armies intact, the turn produces
no winner and no GameOver event. -/
theorem resolveTurn_win_draw_precedence_witness :
    (resolveTurn c1Input).state.winner = none ∧
    ∀ p, TurnEvent.gameOver p ∉ (resolveTurn c1Input).log.events :=
  (resolveTurn_win_draw_precedence c1Input).2.2.2.2.2.2
    ⟨by decide, by decide, by decide, by decide⟩

/-- C7: with no winner and no mutual-destruction draw this turn, the game
ends in a draw for reason "max_turns" exactly when the incremented turn
counter reaches MAX_TURNS = 50; under the limit the phase stays Playing
and no Draw event is emitted. -/
theorem resolveTurn_max_turns (input : TurnInput)
    (hw : (checkWinCondition (runPhases input)).winner = none)
    (hd : (checkWinCondition (runPhases input)).isDraw = false) :
    (((resolveTurn input).state.phase = GamePhase.ended ∧
        TurnEvent.draw "max_turns" ∈ (resolveTurn input).log.events) ↔
      input.state.turn + 1 ≥ MAX_TURNS) ∧
    (resolveTurn input).state.winner = none ∧
    (input.state.turn + 1 < MAX_TURNS →
      (resolveTurn input).state.phase = GamePhase.playing ∧
      ∀ r, TurnEvent.draw r ∉ (resolveTurn input).log.events) := by
  have ht : (checkWinCondition (runPhases input)).terminalLoss = none :=
    winner_none_terminalLoss_none _ hw
  have hm : isMaxOf input = decide (input.state.turn + 1 ≥ MAX_TURNS) := by
    simp [isMaxOf, hw, hd]
  have hfe : finalEvents (checkWinCondition (runPhases input)) (isMaxOf input) =
      (if input.state.turn + 1 ≥ MAX_TURNS then [TurnEvent.draw "max_turns"] else []) := by
    simp only [finalEvents, hw, hd, ht, hm]
    by_cases hge : input.state.turn + 1 ≥ MAX_TURNS <;> simp [hge]
  have hph : (resolveTurn input).state.phase =
      (if input.state.turn + 1 ≥ MAX_TURNS then GamePhase.ended else GamePhase.playing) := by
    rw [resolveTurn_phase_eq]
    have : gameEndedOf input = decide (input.state.turn + 1 ≥ MAX_TURNS) := by
      simp [gameEndedOf, hw, hd, hm]
    rw [this]
    by_cases hge : input.state.turn + 1 ≥ MAX_TURNS <;> simp [hge]
  refine ⟨?_, by rw [resolveTurn_winner_eq]; exact hw, ?_⟩
  · constructor
    · rintro ⟨hend, _⟩
      by_contra hlt
      rw [hph, if_neg hlt] at hend
      exact absurd hend (by simp)
    · intro hge
      refine ⟨by rw [hph, if_pos hge], ?_⟩
      rw [resolveTurn_log_events_eq, hfe, if_pos hge]
      simp
  · intro hlt
    refine ⟨by rw [hph, if_neg (by omega)], ?_⟩
    intro r hmem
    rw [resolveTurn_log_events_eq, hfe, if_neg (by omega)] at hmem
    rcases List.mem_append.mp hmem with h | h
    · exact draw_not_in_phases input r h
    · simp at h

/-- Input for the C7 witness from turn 49: all-shield actions. -/
def c7Input49 : TurnInput :=
  { state := { createInitialState with turn := 49 },
    actionsA := [Action.shield "A1", Action.shield "A2", Action.shield "A3"],
    actionsB := [Action.shield "B1", Action.shield "B2", Action.shield "B3"] }

/-- Input for the C7 witness from turn 48: all-shield actions. -/
def c7Input48 : TurnInput :=
  { state := { createInitialState with turn := 48 },
    actionsA := [Action.shield "A1", Action.shield "A2", Action.shield "A3"],
    actionsB := [Action.shield "B1", Action.shield "B2", Action.shield "B3"] }

/-- C7 witness: all-shield resolution from turn 49 ends the game in the
"max_turns" draw at turn 50, while from turn 48 it stays in Playing at
turn 49 with no Draw event. -/
theorem resolveTurn_max_turns_witness :
    (resolveTurn c7Input49).state.turn = 50 ∧
    (resolveTurn c7Input49).state.phase = GamePhase.ended ∧
    (resolveTurn c7Input49).state.winner = none ∧
    TurnEvent.draw "max_turns" ∈ (resolveTurn c7Input49).log.events ∧
    (resolveTurn c7Input48).state.turn = 49 ∧
    (resolveTurn c7Input48).state.phase = GamePhase.playing ∧
    ∀ r, TurnEvent.draw r ∉ (resolveTurn c7Input48).log.events := by
  have h49 := resolveTurn_max_turns c7Input49 (by decide) (by decide)
  have h48 := resolveTurn_max_turns c7Input48 (by decide) (by decide)
  have hend := h49.1.mpr (by decide)
  have hplay := h48.2.2 (by decide)
  exact ⟨by decide, hend.1, h49.2.1, hend.2, by decide, hplay.1, hplay.2⟩

/-! ## Phase 4 damage arithmetic (C6) -/

theorem damageQuantars_fst (qs : List MQuantar) :
    (damageQuantars qs).1 = qs.map (fun q => (damageQuantar q).1) := by
  induction qs with
  | nil => rfl
  | cons q rest ih => simp [damageQuantars, ih]

theorem damageQuantars_snd (qs : List MQuantar) :
    (damageQuantars qs).2 =
      (qs.filter (fun q => decide (q.pendingDamage > 0))).map (fun q =>
        TurnEvent.damageApplied q.id
          (if q.shielded then max 0 (q.pendingDamage - SHIELD_REDUCTION)
           else q.pendingDamage)
          (q.hp - (if q.shielded then max 0 (q.pendingDamage - SHIELD_REDUCTION)
                   else q.pendingDamage))) := by
  induction qs with
  | nil => rfl
  | cons q rest ih =>
      by_cases hp : q.pendingDamage > 0
      · by_cases hs : q.shielded <;>
          simp [damageQuantars, damageQuantar, hp, hs, ih]
      · simp [damageQuantars, damageQuantar, hp, ih]

/-- Input for the C6 scenario: B1 shields at 2 hp while A1's northward
beam hits it for 1 damage. -/
def c6Input : TurnInput :=
  { state := createInitialState,
    actionsA := [Action.pulse "A1" PulseDir.n],
    actionsB := [Action.shield "B1"] }

/-- C6: in Phase 4 every Quantar with positive pending damage loses
exactly `max 0 (pending - SHIELD_REDUCTION)` hp if shielded and
`pending` hp otherwise, gets a DamageApplied event, and has its pending
damage reset; a shielded 2-hp Quantar hit by one pulse ends the turn
still at 2 hp. -/
theorem applyDamage_shield_floor (s : RState) :
    ((applyDamage s).quantars = s.quantars.map (fun q =>
      if q.pendingDamage > 0 then
        { q with
          hp := q.hp -
            (if q.shielded then max 0 (q.pendingDamage - SHIELD_REDUCTION)
             else q.pendingDamage),
          pendingDamage := 0 }
      else q)) ∧
    ((applyDamage s).events = s.events ++
      (s.quantars.filter (fun q => decide (q.pendingDamage > 0))).map (fun q =>
        TurnEvent.damageApplied q.id
          (if q.shielded then max 0 (q.pendingDamage - SHIELD_REDUCTION)
           else q.pendingDamage)
          (q.hp - (if q.shielded then max 0 (q.pendingDamage - SHIELD_REDUCTION)
                   else q.pendingDamage))) ++
      (if s.coreA.pendingDamage > 0 then
        [TurnEvent.damageApplied ("core_" ++ playerStr s.coreA.owner)
          s.coreA.pendingDamage (s.coreA.hp - s.coreA.pendingDamage)]
       else []) ++
      (if s.coreB.pendingDamage > 0 then
        [TurnEvent.damageApplied ("core_" ++ playerStr s.coreB.owner)
          s.coreB.pendingDamage (s.coreB.hp - s.coreB.pendingDamage)]
       else [])) ∧
    getQuantar (resolveTurn c6Input).state "B1" =
      some { id := "B1", owner := Player.B, position := { x := 3, y := 2 }, hp := 2 } ∧
    TurnEvent.damageApplied "B1" 0 2 ∈ (resolveTurn c6Input).log.events := by
  refine ⟨?_, ?_, by decide, by decide⟩
  · show (damageQuantars s.quantars).1 = _
    rw [damageQuantars_fst]
    apply List.map_congr_left
    intro q _
    by_cases hp : q.pendingDamage > 0 <;> simp [damageQuantar, hp]
  · show s.events ++ (damageQuantars s.quantars).2 ++
        (damageCore s.coreA).2 ++ (damageCore s.coreB).2 = _
    rw [damageQuantars_snd]
    have hc : ∀ c : MCore, (damageCore c).2 =
        (if c.pendingDamage > 0 then
          [TurnEvent.damageApplied ("core_" ++ playerStr c.owner)
            c.pendingDamage (c.hp - c.pendingDamage)]
         else []) := by
      intro c
      by_cases hp : c.pendingDamage > 0 <;> simp [damageCore, hp]
    rw [hc, hc]

/-! ## HP bounds after resolution (C2) -/

/-- Input state for the C2 counterexample: Core B down to 1 hp, with two
A-Quantars in position to land one pulse each on it this turn. -/
def c2State : GameState :=
  { turn := 5,
    phase := GamePhase.playing,
    quantars := [
      { id := "A1", owner := Player.A, position := { x := 4, y := 2 }, hp := 2 },
      { id := "A2", owner := Player.A, position := { x := 3, y := 0 }, hp := 2 },
      { id := "B1", owner := Player.B, position := { x := 0, y := 8 }, hp := 2 }],
    coreA := { owner := Player.A, position := { x := 4, y := 8 }, hp := 5 },
    coreB := { owner := Player.B, position := { x := 4, y := 0 }, hp := 1 },
    winner := none }

/-- The C2 counterexample turn: both A pulses hit Core B. -/
def c2Input : TurnInput :=
  { state := c2State,
    actionsA := [Action.pulse "A1" PulseDir.n, Action.pulse "A2" PulseDir.e],
    actionsB := [] }

/-- C2 counterexample: from a well-formed state, `resolveTurn` persists
Core B with hp = -1 (its 1 hp is overkilled by 2 accumulated pulse
damage and Cores are never clamped or removed). -/
theorem resolveTurn_persists_negative_core_hp :
    WellFormedState c2State ∧
    (resolveTurn c2Input).state.coreB.hp = -1 := by
  constructor
  · refine ⟨by decide, by decide, by decide, by decide, by decide, by decide,
      by decide, by decide, by decide, by decide, by decide, by decide, by decide⟩
  · decide

/-- C2 amended: no Quantar is ever persisted with non-positive hp — the
cleanup phase filters them out — for every input and action lists (Cores,
by the counterexample, can go negative). -/
theorem resolveTurn_quantars_positive_hp (input : TurnInput) :
    ∀ q ∈ (resolveTurn input).state.quantars, 0 < q.hp := by
  intro q hq
  have hq2 : q ∈ ((applyDamage (resolvePulses (resolveShields
      (resolveMoves (toResolutionState input.state)
        (input.actionsA ++ input.actionsB)) (input.actionsA ++ input.actionsB))
      (input.actionsA ++ input.actionsB))).quantars.filter
        (fun r => decide (r.hp > 0))).map toImmutableQuantar := hq
  rcases List.mem_map.mp hq2 with ⟨m, hm, rfl⟩
  have hpos := List.of_mem_filter hm
  simp only [decide_eq_true_eq, gt_iff_lt] at hpos
  simpa [toImmutableQuantar] using hpos

/-- Input for the C2 amended-claim witness. -/
def c2AmendInput : TurnInput :=
  { state := createInitialState, actionsA := [], actionsB := [] }

/-- C2 amended witness: a concrete surviving Quantar of a resolved turn
has positive hp. -/
theorem resolveTurn_quantars_positive_hp_witness :
    ({ id := "A1", owner := Player.A, position := { x := 3, y := 6 }, hp := 2 } : Quantar) ∈
      (resolveTurn c2AmendInput).state.quantars ∧
    (0 : Int) <
      ({ id := "A1", owner := Player.A, position := { x := 3, y := 6 }, hp := 2 } : Quantar).hp :=
  ⟨by decide, resolveTurn_quantars_positive_hp c2AmendInput _ (by decide)⟩

/-! ## Phase 1 blocking by a stationary occupant (C3) -/

theorem filterFinalMoves_mem_fst (s : RState) (ctx : List IntendedMove) :
    ∀ (ms : List IntendedMove) (m : IntendedMove),
      m ∈ (filterFinalMoves s ctx ms).1 ↔
        m ∈ ms ∧ finalMoveCheck s ctx m = MoveCheck.allowed := by
  intro ms
  induction ms with
  | nil => intro m; simp [filterFinalMoves]
  | cons a rest ih =>
      intro m
      cases hc : finalMoveCheck s ctx a with
      | allowed =>
          simp only [filterFinalMoves, hc, List.mem_cons]
          constructor
          · rintro (rfl | h)
            · exact ⟨Or.inl rfl, hc⟩
            · exact ⟨Or.inr ((ih m).mp h).1, ((ih m).mp h).2⟩
          · rintro ⟨rfl | hm, hall⟩
            · exact Or.inl rfl
            · exact Or.inr ((ih m).mpr ⟨hm, hall⟩)
      | blocked r =>
          simp only [filterFinalMoves, hc, List.mem_cons]
          constructor
          · intro h
            exact ⟨Or.inr ((ih m).mp h).1, ((ih m).mp h).2⟩
          · rintro ⟨rfl | hm, hall⟩
            · rw [hall] at hc; cases hc
            · exact (ih m).mpr ⟨hm, hall⟩

theorem filterFinalMoves_blocked_event (s : RState) (ctx : List IntendedMove) :
    ∀ (ms : List IntendedMove) (m : IntendedMove) (reason : String), m ∈ ms →
      finalMoveCheck s ctx m = MoveCheck.blocked reason →
      TurnEvent.moveBlocked m.qid m.origin m.direction reason ∈
        (filterFinalMoves s ctx ms).2 := by
  intro ms
  induction ms with
  | nil => intro m r h; simp at h
  | cons a rest ih =>
      intro m r hm hc
      rcases List.mem_cons.mp hm with rfl | hm'
      · simp only [filterFinalMoves, hc]
        exact List.mem_cons_self _ _
      · cases hca : finalMoveCheck s ctx a with
        | allowed =>
            simp only [filterFinalMoves, hca]
            exact ih m r hm' hc
        | blocked ra =>
            simp only [filterFinalMoves, hca]
            exact List.mem_cons_of_mem _ (ih m r hm' hc)

/-- C3 amended: for an uncontested surviving move whose destination holds
another live Quantar, the mover is dropped with
MoveBlocked("blocked by stationary Quantar") exactly when the occupant
has no surviving intended move of its own; when the occupant's surviving
move goes to a third cell (one that is not the mover's origin), this
check does not block the mover. -/
theorem resolveMoves_stationary_occupant (s : RState) (actions : List Action)
    (m : IntendedMove) (occ : MQuantar)
    (hm : m ∈ (filterCoreMoves s (computeIntendedMoves s actions).1).1)
    (hcount : destCount (filterCoreMoves s (computeIntendedMoves s actions).1).1 m.dest = 1)
    (hocc : s.quantars.find?
        (fun q => decide (q.hp > 0) && q.id != m.qid && q.position == m.dest) = some occ) :
    (lookupMove (filterCoreMoves s (computeIntendedMoves s actions).1).1 occ.id = none →
      finalMoveCheck s (filterCoreMoves s (computeIntendedMoves s actions).1).1 m =
        MoveCheck.blocked "blocked by stationary Quantar" ∧
      m ∉ (filterFinalMoves s (filterCoreMoves s (computeIntendedMoves s actions).1).1
            (filterCoreMoves s (computeIntendedMoves s actions).1).1).1 ∧
      TurnEvent.moveBlocked m.qid m.origin m.direction "blocked by stationary Quantar" ∈
        (resolveMoves s actions).events) ∧
    (∀ om, lookupMove (filterCoreMoves s (computeIntendedMoves s actions).1).1 occ.id =
        some om → om.dest ≠ m.origin →
      m ∈ (filterFinalMoves s (filterCoreMoves s (computeIntendedMoves s actions).1).1
            (filterCoreMoves s (computeIntendedMoves s actions).1).1).1) := by
  have hng : ¬ destCount (filterCoreMoves s (computeIntendedMoves s actions).1).1 m.dest > 1 := by
    omega
  constructor
  · intro hnone
    have hchk : finalMoveCheck s (filterCoreMoves s (computeIntendedMoves s actions).1).1 m =
        MoveCheck.blocked "blocked by stationary Quantar" := by
      unfold finalMoveCheck
      rw [if_neg hng, hocc]
      simp only [hnone]
    refine ⟨hchk, ?_, ?_⟩
    · intro hkept
      have := ((filterFinalMoves_mem_fst s _ _ m).mp hkept).2
      rw [hchk] at this
      cases this
    · have hev := filterFinalMoves_blocked_event s
        (filterCoreMoves s (computeIntendedMoves s actions).1).1
        (filterCoreMoves s (computeIntendedMoves s actions).1).1 m
        "blocked by stationary Quantar" hm hchk
      have hevents : (resolveMoves s actions).events =
          s.events ++ (computeIntendedMoves s actions).2 ++
            (filterCoreMoves s (computeIntendedMoves s actions).1).2 ++
            (filterFinalMoves s (filterCoreMoves s (computeIntendedMoves s actions).1).1
              (filterCoreMoves s (computeIntendedMoves s actions).1).1).2 ++
            (applyMoves (filterFinalMoves s
                (filterCoreMoves s (computeIntendedMoves s actions).1).1
                (filterCoreMoves s (computeIntendedMoves s actions).1).1).1 s.quantars).2 := rfl
      rw [hevents]
      simp only [List.mem_append]
      exact Or.inl (Or.inr hev)
  · intro om hsome hne
    have hchk : finalMoveCheck s (filterCoreMoves s (computeIntendedMoves s actions).1).1 m =
        MoveCheck.allowed := by
      unfold finalMoveCheck
      rw [if_neg hng, hocc]
      simp only [hsome]
      rw [if_neg hne]
    exact (filterFinalMoves_mem_fst s _ _ m).mpr ⟨hm, hchk⟩

/-- State for the C3 counterexample and witness. -/
def c3State : GameState :=
  { turn := 3,
    phase := GamePhase.playing,
    quantars := [
      { id := "A1", owner := Player.A, position := { x := 0, y := 0 }, hp := 2 },
      { id := "A2", owner := Player.A, position := { x := 1, y := 0 }, hp := 2 },
      { id := "B1", owner := Player.B, position := { x := 7, y := 7 }, hp := 2 }],
    coreA := { owner := Player.A, position := { x := 4, y := 8 }, hp := 5 },
    coreB := { owner := Player.B, position := { x := 4, y := 0 }, hp := 5 },
    winner := none }

/-- The C3 counterexample turn: A1 moves into A2's cell while A2 moves on
to a third cell. -/
def c3Input : TurnInput :=
  { state := c3State,
    actionsA := [Action.move "A1" Direction.east, Action.move "A2" Direction.east],
    actionsB := [] }

/-- C3 counterexample: A1's move into the cell of A2 — whose own intended
move goes to a third cell, not A1's origin — is NOT dropped: both moves
are applied and no MoveBlocked event is emitted, contradicting the claim
that such a mover is blocked with "blocked by stationary Quantar". -/
theorem resolveMoves_third_cell_not_blocked :
    (resolveTurn c3Input).log.events =
      [TurnEvent.moveApplied "A1" { x := 0, y := 0 } { x := 1, y := 0 },
       TurnEvent.moveApplied "A2" { x := 1, y := 0 } { x := 2, y := 0 }] ∧
    getQuantar (resolveTurn c3Input).state "A1" =
      some { id := "A1", owner := Player.A, position := { x := 1, y := 0 }, hp := 2 } := by
  constructor
  · decide
  · decide

/-- C3 amended witness: a concrete state where the occupant is truly
stationary, so the mover is dropped with the stationary-Quantar reason. -/
theorem resolveMoves_stationary_occupant_witness :
    finalMoveCheck (toResolutionState c3State)
        (filterCoreMoves (toResolutionState c3State)
          (computeIntendedMoves (toResolutionState c3State)
            [Action.move "A1" Direction.east]).1).1
        { qid := "A1", origin := { x := 0, y := 0 }, dest := { x := 1, y := 0 },
          direction := Direction.east } =
      MoveCheck.blocked "blocked by stationary Quantar" ∧
    TurnEvent.moveBlocked "A1" { x := 0, y := 0 } Direction.east
        "blocked by stationary Quantar" ∈
      (resolveMoves (toResolutionState c3State) [Action.move "A1" Direction.east]).events := by
  have h := resolveMoves_stationary_occupant (toResolutionState c3State)
    [Action.move "A1" Direction.east]
    { qid := "A1", origin := { x := 0, y := 0 }, dest := { x := 1, y := 0 },
      direction := Direction.east }
    { id := "A2", owner := Player.A, position := { x := 1, y := 0 }, hp := 2,
      shielded := false, pendingDamage := 0 }
    (by decide) (by decide) (by decide)
  have h2 := h.1 (by decide)
  exact ⟨h2.1, h2.2.2⟩

/-! ## Turn-submission validation (C8) -/

theorem validateActionsLoop_ok_iff (state : GameState) (pid : Player) :
    ∀ (acts : List Action) (seen : List String),
      validateActionsLoop state pid acts seen = VResult.ok ↔
        ((acts.map Action.quantarId).Nodup ∧
         (∀ a ∈ acts, a.quantarId ∉ seen) ∧
         (∀ a ∈ acts, validateAction state a pid = VResult.ok)) := by
  intro acts
  induction acts with
  | nil => intro seen; simp [validateActionsLoop]
  | cons a rest ih =>
      intro seen
      simp only [validateActionsLoop]
      by_cases hseen : a.quantarId ∈ seen
      · rw [if_pos hseen]
        simp only [List.mem_cons]
        constructor
        · intro h; cases h
        · rintro ⟨_, h2, _⟩
          exact absurd hseen (h2 a (Or.inl rfl))
      · rw [if_neg hseen]
        cases hva : validateAction state a pid with
        | err c m =>
            constructor
            · intro h; cases h
            · rintro ⟨_, _, h3⟩
              have := h3 a (List.mem_cons_self a rest)
              rw [hva] at this; cases this
        | ok =>
            rw [ih (a.quantarId :: seen)]
            simp only [List.map_cons, List.nodup_cons, List.mem_cons, List.mem_map]
            constructor
            · rintro ⟨h1, h2, h3⟩
              refine ⟨⟨?_, h1⟩, ?_, ?_⟩
              · rintro ⟨b, hb, hbid⟩
                exact absurd (Or.inl hbid.symm) (fun h => by
                  rcases h with h | h
                  · exact (h2 b hb) (by simp [h])
                  · exact hseen (hbid ▸ h))
              · intro b hb
                rcases hb with rfl | hb
                · exact hseen
                · intro hmem
                  exact (h2 b hb) (by simp [List.mem_cons, hmem])
              · intro b hb
                rcases hb with rfl | hb
                · exact hva
                · exact h3 b hb
            · rintro ⟨⟨h0, h1⟩, h2, h3⟩
              refine ⟨h1, ?_, fun b hb => h3 b (Or.inr hb)⟩
              intro b hb hmem
              rcases hmem with heq | hmem'
              · exact h0 ⟨b, hb, heq⟩
              · exact (h2 b (Or.inr hb)) hmem'

theorem checkMissingActions_ok_iff (ids : List String) :
    ∀ qs : List Quantar,
      checkMissingActions ids qs = VResult.ok ↔ ∀ q ∈ qs, q.id ∈ ids := by
  intro qs
  induction qs with
  | nil => simp [checkMissingActions]
  | cons q rest ih =>
      simp only [checkMissingActions]
      by_cases hq : q.id ∈ ids
      · rw [if_pos hq, ih]
        simp [hq]
      · rw [if_neg hq]
        constructor
        · intro h; cases h
        · intro h
          exact absurd (h q (List.mem_cons_self q rest)) hq

theorem checkMissingActions_err (ids : List String) :
    ∀ qs : List Quantar, (∃ q ∈ qs, q.id ∉ ids) →
      ∃ msg, checkMissingActions ids qs = VResult.err VCode.MISSING_QUANTAR_ACTION msg := by
  intro qs
  induction qs with
  | nil => rintro ⟨q, hq, _⟩; cases hq
  | cons q rest ih =>
      rintro ⟨r, hr, hrid⟩
      simp only [checkMissingActions]
      by_cases hq : q.id ∈ ids
      · rw [if_pos hq]
        rcases List.mem_cons.mp hr with rfl | hr'
        · exact absurd hq hrid
        · exact ih ⟨r, hr', hrid⟩
      · rw [if_neg hq]
        exact ⟨_, rfl⟩

theorem validateActionsLoop_append (state : GameState) (pid : Player) :
    ∀ (pre : List Action) (seen : List String),
      (pre.map Action.quantarId).Nodup →
      (∀ b ∈ pre, validateAction state b pid = VResult.ok) →
      (∀ b ∈ pre, b.quantarId ∉ seen) →
      ∀ rest, validateActionsLoop state pid (pre ++ rest) seen =
        validateActionsLoop state pid rest ((pre.map Action.quantarId).reverse ++ seen) := by
  intro pre
  induction pre with
  | nil => intro seen _ _ _ rest; simp
  | cons a pre' ih =>
      intro seen hnd hok hns rest
      have ha : a.quantarId ∉ seen := hns a (List.mem_cons_self a pre')
      have hva : validateAction state a pid = VResult.ok := hok a (List.mem_cons_self a pre')
      simp only [List.cons_append, validateActionsLoop, if_neg ha, hva, List.append_eq]
      have hnd' : (pre'.map Action.quantarId).Nodup := by
        simpa [List.nodup_cons] using hnd.of_cons
      have hok' : ∀ b ∈ pre', validateAction state b pid = VResult.ok :=
        fun b hb => hok b (List.mem_cons_of_mem a hb)
      have hns' : ∀ b ∈ pre', b.quantarId ∉ a.quantarId :: seen := by
        intro b hb
        simp only [List.mem_cons]
        push_neg
        constructor
        · intro heq
          have : a.quantarId ∈ pre'.map Action.quantarId :=
            List.mem_map.mpr ⟨b, hb, heq⟩
          simp only [List.map_cons, List.nodup_cons] at hnd
          exact hnd.1 this
        · exact fun h => (hns b (List.mem_cons_of_mem a hb)) h
      rw [ih (a.quantarId :: seen) hnd' hok' hns' rest]
      congr 1
      simp [List.reverse_cons, List.append_assoc]

/-- C8: `validatePlayerActions` succeeds exactly when the phase is
Playing, no two actions share a quantarId, every action passes
`validateAction`, and every live owned Quantar is covered; otherwise it
reports GAME_NOT_IN_ACTION_PHASE, DUPLICATE_QUANTAR_ACTION at the first
repeated id, the first failing action's own error, or
MISSING_QUANTAR_ACTION respectively. (The embedding is purely
functional, so the no-mutation clause holds by construction.) -/
theorem validatePlayerActions_spec (state : GameState) (actions : List Action) (pid : Player) :
    (validatePlayerActions state actions pid = VResult.ok ↔
      (state.phase = GamePhase.playing ∧
       (actions.map Action.quantarId).Nodup ∧
       (∀ a ∈ actions, validateAction state a pid = VResult.ok) ∧
       (∀ q ∈ state.quantars, q.owner = pid → 0 < q.hp →
          q.id ∈ actions.map Action.quantarId))) ∧
    (state.phase ≠ GamePhase.playing →
      validatePlayerActions state actions pid =
        VResult.err VCode.GAME_NOT_IN_ACTION_PHASE "Game is not in playing phase") ∧
    (∀ pre a post, state.phase = GamePhase.playing → actions = pre ++ a :: post →
      (pre.map Action.quantarId).Nodup →
      (∀ b ∈ pre, validateAction state b pid = VResult.ok) →
      a.quantarId ∈ pre.map Action.quantarId →
      validatePlayerActions state actions pid =
        VResult.err VCode.DUPLICATE_QUANTAR_ACTION
          ("Duplicate action for Quantar " ++ a.quantarId)) ∧
    (∀ pre a post c msg, state.phase = GamePhase.playing → actions = pre ++ a :: post →
      (pre.map Action.quantarId).Nodup →
      (∀ b ∈ pre, validateAction state b pid = VResult.ok) →
      a.quantarId ∉ pre.map Action.quantarId →
      validateAction state a pid = VResult.err c msg →
      validatePlayerActions state actions pid = VResult.err c msg) ∧
    (state.phase = GamePhase.playing →
      (actions.map Action.quantarId).Nodup →
      (∀ a ∈ actions, validateAction state a pid = VResult.ok) →
      (∃ q ∈ state.quantars, q.owner = pid ∧ 0 < q.hp ∧
        q.id ∉ actions.map Action.quantarId) →
      ∃ msg, validatePlayerActions state actions pid =
        VResult.err VCode.MISSING_QUANTAR_ACTION msg) := by
  have halive : ∀ q : Quantar,
      (q ∈ (getPlayerQuantars state pid).filter (fun r => decide (r.hp > 0))) ↔
        (q ∈ state.quantars ∧ q.owner = pid ∧ 0 < q.hp) := by
    intro q
    simp only [getPlayerQuantars, List.mem_filter, beq_iff_eq, decide_eq_true_eq, gt_iff_lt]
    tauto
  refine ⟨?_, ?_, ?_, ?_, ?_⟩
  · by_cases hph : state.phase = GamePhase.playing
    · simp only [validatePlayerActions,
        if_neg (show ¬state.phase ≠ GamePhase.playing by simp [hph])]
      cases hloop : validateActionsLoop state pid actions [] with
      | err c m =>
          constructor
          · intro h; cases h
          · rintro ⟨_, hnd, hva, _⟩
            have := (validateActionsLoop_ok_iff state pid actions []).mpr
              ⟨hnd, by simp, hva⟩
            rw [hloop] at this; cases this
      | ok =>
          have hl := (validateActionsLoop_ok_iff state pid actions []).mp hloop
          rw [checkMissingActions_ok_iff]
          constructor
          · intro hmiss
            refine ⟨hph, hl.1, hl.2.2, ?_⟩
            intro q hq hown hhp
            exact hmiss q ((halive q).mpr ⟨hq, hown, hhp⟩)
          · rintro ⟨_, _, _, hcov⟩
            intro q hq
            have := (halive q).mp hq
            exact hcov q this.1 this.2.1 this.2.2
    · constructor
      · intro h
        simp only [validatePlayerActions, if_pos hph] at h
        cases h
      · rintro ⟨h, _⟩
        exact absurd h hph
  · intro hph
    simp only [validatePlayerActions, if_pos hph]
  · intro pre a post hph heq hnd hok hdup
    subst heq
    simp only [validatePlayerActions,
      if_neg (by simp [hph] : ¬state.phase ≠ GamePhase.playing)]
    rw [validateActionsLoop_append state pid pre [] hnd hok (by simp) (a :: post)]
    simp only [validateActionsLoop, List.append_nil]
    rw [if_pos (by simpa using hdup)]
  · intro pre a post c msg hph heq hnd hok hnodup hverr
    subst heq
    simp only [validatePlayerActions,
      if_neg (by simp [hph] : ¬state.phase ≠ GamePhase.playing)]
    rw [validateActionsLoop_append state pid pre [] hnd hok (by simp) (a :: post)]
    simp only [validateActionsLoop, List.append_nil]
    rw [if_neg (by simpa using hnodup)]
    simp only [hverr]
  · intro hph hnd hva hmiss
    simp only [validatePlayerActions,
      if_neg (by simp [hph] : ¬state.phase ≠ GamePhase.playing)]
    have hloop : validateActionsLoop state pid actions [] = VResult.ok :=
      (validateActionsLoop_ok_iff state pid actions []).mpr ⟨hnd, by simp, hva⟩
    rw [hloop]
    apply checkMissingActions_err
    rcases hmiss with ⟨q, hq, hown, hhp, hid⟩
    exact ⟨q, (halive q).mpr ⟨hq, hown, hhp⟩, hid⟩

/-- C8 witness: concrete instances of the failure modes — wrong phase,
missing action for A3, duplicate action for A1, acting on the opponent's
unit. -/
theorem validatePlayerActions_spec_witness :
    validatePlayerActions { createInitialState with phase := GamePhase.ended } [] Player.A =
      VResult.err VCode.GAME_NOT_IN_ACTION_PHASE "Game is not in playing phase" ∧
    validatePlayerActions createInitialState
        [Action.shield "A1", Action.shield "A2"] Player.A =
      VResult.err VCode.MISSING_QUANTAR_ACTION "Missing action for Quantar A3" ∧
    validatePlayerActions createInitialState
        [Action.shield "A1", Action.shield "A1", Action.shield "A2"] Player.A =
      VResult.err VCode.DUPLICATE_QUANTAR_ACTION "Duplicate action for Quantar A1" ∧
    validateAction createInitialState (Action.shield "B1") Player.A =
      VResult.err VCode.QUANTAR_NOT_OWNED "Quantar B1 is not owned by player A" ∧
    validatePlayerActions createInitialState
        [Action.shield "A1", Action.shield "A2", Action.shield "A3"] Player.A =
      VResult.ok :=
  ⟨(validatePlayerActions_spec { createInitialState with phase := GamePhase.ended }
      [] Player.A).2.1 (by decide),
   by decide, by decide, by decide, by decide⟩

/-! ## Phase 3 beam tracing (C5) -/

theorem rayCell_one (p : Pos) (d : PulseDir) :
    rayCell p d 1 = applyPulseDirection p d := by
  simp [rayCell, applyPulseDirection]

theorem rayCell_shift (p : Pos) (d : PulseDir) (k : Nat) :
    rayCell (applyPulseDirection p d) d k = rayCell p d (k + 1) := by
  simp only [rayCell, applyPulseDirection, Pos.mk.injEq]
  constructor <;> push_cast <;> ring

theorem isInBounds_iff (p : Pos) :
    isInBounds p = true ↔ (0 ≤ p.x ∧ p.x < 9 ∧ 0 ≤ p.y ∧ p.y < 9) := by
  simp [isInBounds, and_assoc]

theorem traceOrtho_some_spec (s : RState) (d : PulseDir) :
    ∀ (fuel : Nat) (pos c : Pos), traceOrtho s d fuel pos = some c →
      ∃ k : Nat, 1 ≤ k ∧ c = rayCell pos d k ∧ isInBounds c = true ∧
        (entityAtPosition s c).isSome = true ∧
        ∀ j : Nat, 1 ≤ j → j < k →
          isInBounds (rayCell pos d j) = true ∧
          entityAtPosition s (rayCell pos d j) = none := by
  intro fuel
  induction fuel with
  | zero => intro pos c h; simp [traceOrtho] at h
  | succ fuel ih =>
      intro pos c h
      simp only [traceOrtho] at h
      by_cases hb : isInBounds (applyPulseDirection pos d) = true
      · rw [if_pos hb] at h
        cases he : entityAtPosition s (applyPulseDirection pos d) with
        | some t =>
            rw [he] at h
            have hc : c = applyPulseDirection pos d := by
              cases h; rfl
            subst hc
            refine ⟨1, le_refl 1, (rayCell_one pos d).symm, hb, by rw [he]; rfl, ?_⟩
            intro j hj1 hj2
            omega
        | none =>
            rw [he] at h
            rcases ih (applyPulseDirection pos d) c h with
              ⟨k, hk1, hkc, hkb, hks, hkint⟩
            refine ⟨k + 1, by omega, by rw [hkc, rayCell_shift], hkb, hks, ?_⟩
            intro j hj1 hj2
            rcases Nat.exists_eq_add_of_le hj1 with ⟨j', rfl⟩
            cases j' with
            | zero =>
                constructor
                · simpa [rayCell_one] using hb
                · simpa [rayCell_one] using he
            | succ j'' =>
                have := hkint (j'' + 1) (by omega) (by omega)
                constructor
                · rw [show 1 + (j'' + 1) = (j'' + 1) + 1 by omega, ← rayCell_shift]
                  exact this.1
                · rw [show 1 + (j'' + 1) = (j'' + 1) + 1 by omega, ← rayCell_shift]
                  exact this.2
      · rw [if_neg hb] at h
        cases h

theorem traceOrtho_none_spec (s : RState) (d : PulseDir) :
    ∀ (fuel : Nat) (pos : Pos), traceOrtho s d fuel pos = none →
      (∃ k : Nat, 1 ≤ k ∧ isInBounds (rayCell pos d k) = false ∧
        ∀ j : Nat, 1 ≤ j → j < k →
          isInBounds (rayCell pos d j) = true ∧
          entityAtPosition s (rayCell pos d j) = none) ∨
      (∀ j : Nat, 1 ≤ j → j ≤ fuel →
        isInBounds (rayCell pos d j) = true ∧
        entityAtPosition s (rayCell pos d j) = none) := by
  intro fuel
  induction fuel with
  | zero =>
      intro pos _
      right
      intro j hj1 hj2
      omega
  | succ fuel ih =>
      intro pos h
      simp only [traceOrtho] at h
      by_cases hb : isInBounds (applyPulseDirection pos d) = true
      · rw [if_pos hb] at h
        cases he : entityAtPosition s (applyPulseDirection pos d) with
        | some t => rw [he] at h; cases h
        | none =>
            rw [he] at h
            rcases ih (applyPulseDirection pos d) h with ⟨k, hk1, hkb, hkint⟩ | hall
            · left
              refine ⟨k + 1, by omega, by rw [← rayCell_shift]; exact hkb, ?_⟩
              intro j hj1 hj2
              rcases Nat.exists_eq_add_of_le hj1 with ⟨j', rfl⟩
              cases j' with
              | zero =>
                  exact ⟨by simpa [rayCell_one] using hb, by simpa [rayCell_one] using he⟩
              | succ j'' =>
                  have := hkint (j'' + 1) (by omega) (by omega)
                  rw [show 1 + (j'' + 1) = (j'' + 1) + 1 by omega, ← rayCell_shift]
                  exact this
            · right
              intro j hj1 hj2
              rcases Nat.exists_eq_add_of_le hj1 with ⟨j', rfl⟩
              cases j' with
              | zero =>
                  exact ⟨by simpa [rayCell_one] using hb, by simpa [rayCell_one] using he⟩
              | succ j'' =>
                  have := hall (j'' + 1) (by omega) (by omega)
                  rw [show 1 + (j'' + 1) = (j'' + 1) + 1 by omega, ← rayCell_shift]
                  exact this
      · rw [if_neg hb] at h
        left
        refine ⟨1, le_refl 1, ?_, ?_⟩
        · rw [rayCell_one]
          exact Bool.not_eq_true _ ▸ (by simpa using hb)
        · intro j hj1 hj2
          omega

theorem rayCell_pulseFuel_out (pos : Pos) (d : PulseDir)
    (hd : isDiagonalPulse d = false) :
    ¬ isInBounds (rayCell pos d (pulseFuel pos)) = true := by
  rw [isInBounds_iff]
  cases d <;> simp only [isDiagonalPulse] at hd <;>
    simp only [rayCell, pulseFuel, pulseDirectionDelta] <;> omega

theorem entityAtPosition_isSome_iff (s : RState) (p : Pos) :
    (entityAtPosition s p).isSome = true ↔
      ((∃ r ∈ s.quantars, 0 < r.hp ∧ r.position = p) ∨
        s.coreA.position = p ∨ s.coreB.position = p) := by
  unfold entityAtPosition
  cases hf : s.quantars.find? (fun q => decide (q.hp > 0) && q.position == p) with
  | some t =>
      simp only [Option.isSome_some, true_iff]
      left
      have hmem := List.mem_of_find?_eq_some hf
      have hpred := List.find?_some hf
      simp only [Bool.and_eq_true, decide_eq_true_eq, beq_iff_eq, gt_iff_lt] at hpred
      exact ⟨t, hmem, hpred.1, hpred.2⟩
  | none =>
      have hno : ¬∃ r ∈ s.quantars, 0 < r.hp ∧ r.position = p := by
        rintro ⟨r, hr, hhp, hpos⟩
        have := List.find?_eq_none.mp hf r hr
        simp [hhp, hpos] at this
      by_cases hA : s.coreA.position = p
      · simp [hA, hno]
      · by_cases hB : s.coreB.position = p
        · simp [hA, hB, hno]
        · simp [hA, hB, hno]

theorem entityAtPosition_quant_find (s : RState) (p : Pos) (t : MQuantar)
    (h : entityAtPosition s p = some (EntityRef.quant t)) :
    s.quantars.find? (fun q => decide (q.hp > 0) && q.position == p) = some t ∧
      0 < t.hp ∧ t.position = p := by
  unfold entityAtPosition at h
  cases hf : s.quantars.find? (fun q => decide (q.hp > 0) && q.position == p) with
  | some r =>
      rw [hf] at h
      have : r = t := by cases h; rfl
      subst this
      have hpred := List.find?_some hf
      simp only [Bool.and_eq_true, decide_eq_true_eq, beq_iff_eq, gt_iff_lt] at hpred
      exact ⟨rfl, hpred.1, hpred.2⟩
  | none =>
      rw [hf] at h
      by_cases hA : s.coreA.position = p
      · rw [if_pos hA] at h; cases h
      · rw [if_neg hA] at h
        by_cases hB : s.coreB.position = p
        · rw [if_pos hB] at h; cases h
        · rw [if_neg hB] at h; cases h

theorem find?_updateFirst_decomp (p : MQuantar → Bool) (f : MQuantar → MQuantar) :
    ∀ (l : List MQuantar) (t : MQuantar), l.find? p = some t →
      ∃ pre post, l = pre ++ t :: post ∧ (∀ x ∈ pre, p x = false) ∧
        updateFirst p f l = pre ++ f t :: post := by
  intro l
  induction l with
  | nil => intro t h; cases h
  | cons a rest ih =>
      intro t h
      by_cases hp : p a = true
      · have : a = t := by
          rw [List.find?_cons_of_pos _ hp] at h
          cases h; rfl
        subst this
        exact ⟨[], rest, rfl, by simp, by simp [updateFirst, hp]⟩
      · have hp' : p a = false := by simpa using hp
        rw [List.find?_cons_of_neg _ (by simp [hp'])] at h
        rcases ih t h with ⟨pre, post, heq, hpre, hupd⟩
        refine ⟨a :: pre, post, by rw [heq]; rfl, ?_, ?_⟩
        · intro x hx
          rcases List.mem_cons.mp hx with rfl | hx'
          · exact hp'
          · exact hpre x hx'
        · simp only [updateFirst, hp', Bool.false_eq_true, if_false, List.cons_append]
          rw [hupd]

/-- C5: beams originate at the firing Quantar's current (post-move)
position; a diagonal pulse checks exactly the range-1 cell, an orthogonal
pulse steps outward to the first occupied cell or off the board; a miss
changes nothing and logs PulseFired + PulseMiss; a hit adds
PULSE_DAMAGE = 1 to the pending damage of exactly the first live occupant
(or the Core, logged with targetId "core_" + owner) and changes nothing
else — in particular a beam never hits more than one target.
`resolveTurn` invokes this after Phase 1, so positions are post-move. -/
theorem resolvePulses_beam_spec (s : RState) (qid : String) (dir : PulseDir)
    (q : MQuantar) (hq : getQuantarById s qid = some q) (hhp : 0 < q.hp) :
    (∀ c, (entityAtPosition s c).isSome = true ↔
      ((∃ r ∈ s.quantars, 0 < r.hp ∧ r.position = c) ∨
        s.coreA.position = c ∨ s.coreB.position = c)) ∧
    (isDiagonalPulse dir = true →
      pulseHitCell s q.position dir =
        (if isInBounds (applyPulseDirection q.position dir) = true ∧
            (entityAtPosition s (applyPulseDirection q.position dir)).isSome = true then
          some (applyPulseDirection q.position dir)
        else none)) ∧
    (isDiagonalPulse dir = false → ∀ c, pulseHitCell s q.position dir = some c →
      ∃ k, 1 ≤ k ∧ c = rayCell q.position dir k ∧ isInBounds c = true ∧
        (entityAtPosition s c).isSome = true ∧
        ∀ j, 1 ≤ j → j < k → isInBounds (rayCell q.position dir j) = true ∧
          entityAtPosition s (rayCell q.position dir j) = none) ∧
    (isDiagonalPulse dir = false → pulseHitCell s q.position dir = none →
      ∃ k, 1 ≤ k ∧ isInBounds (rayCell q.position dir k) = false ∧
        ∀ j, 1 ≤ j → j < k → isInBounds (rayCell q.position dir j) = true ∧
          entityAtPosition s (rayCell q.position dir j) = none) ∧
    (pulseHitCell s q.position dir = none →
      resolvePulseAction s qid dir =
        { s with events := s.events ++
            [TurnEvent.pulseFired q.id q.position dir, TurnEvent.pulseMiss q.id] }) ∧
    (∀ c t, pulseHitCell s q.position dir = some c →
      entityAtPosition s c = some (EntityRef.quant t) →
      ∃ pre post, s.quantars = pre ++ t :: post ∧
        (∀ x ∈ pre, ¬(0 < x.hp ∧ x.position = c)) ∧
        resolvePulseAction s qid dir =
          { s with
            quantars :=
              pre ++ { t with pendingDamage := t.pendingDamage + PULSE_DAMAGE } :: post,
            events := s.events ++
              [TurnEvent.pulseFired q.id q.position dir,
               TurnEvent.pulseHit t.id EntityKind.quantar PULSE_DAMAGE] }) ∧
    (∀ c, pulseHitCell s q.position dir = some c →
      entityAtPosition s c = some (EntityRef.coreOf Player.A) →
      resolvePulseAction s qid dir =
        { s with
          coreA := { s.coreA with pendingDamage := s.coreA.pendingDamage + PULSE_DAMAGE },
          events := s.events ++
            [TurnEvent.pulseFired q.id q.position dir,
             TurnEvent.pulseHit ("core_" ++ playerStr s.coreA.owner)
               EntityKind.core PULSE_DAMAGE] }) ∧
    (∀ c, pulseHitCell s q.position dir = some c →
      entityAtPosition s c = some (EntityRef.coreOf Player.B) →
      resolvePulseAction s qid dir =
        { s with
          coreB := { s.coreB with pendingDamage := s.coreB.pendingDamage + PULSE_DAMAGE },
          events := s.events ++
            [TurnEvent.pulseFired q.id q.position dir,
             TurnEvent.pulseHit ("core_" ++ playerStr s.coreB.owner)
               EntityKind.core PULSE_DAMAGE] }) := by
  have hnle : ¬ q.hp ≤ 0 := by omega
  refine ⟨entityAtPosition_isSome_iff s, ?_, ?_, ?_, ?_, ?_, ?_, ?_⟩
  · intro hdiag
    simp only [pulseHitCell, hdiag, if_true]
    by_cases hb : isInBounds (applyPulseDirection q.position dir) = true
    · cases he : entityAtPosition s (applyPulseDirection q.position dir) <;>
        simp [hb, he]
    · simp [hb]
  · intro hdiag c hcell
    simp only [pulseHitCell, hdiag, Bool.false_eq_true, if_false] at hcell
    exact traceOrtho_some_spec s dir (pulseFuel q.position) q.position c hcell
  · intro hdiag hcell
    simp only [pulseHitCell, hdiag, Bool.false_eq_true, if_false] at hcell
    rcases traceOrtho_none_spec s dir (pulseFuel q.position) q.position hcell with
      ⟨k, hk1, hkb, hkint⟩ | hall
    · exact ⟨k, hk1, hkb, hkint⟩
    · exfalso
      have h1 : 1 ≤ pulseFuel q.position := by
        simp only [pulseFuel]
        omega
      exact rayCell_pulseFuel_out q.position dir hdiag
        (hall (pulseFuel q.position) h1 (le_refl _)).1
  · intro hcell
    simp only [resolvePulseAction, hq, if_neg hnle, hcell]
    simp [List.append_assoc]
  · intro c t hcell ht
    rcases entityAtPosition_quant_find s c t ht with ⟨hfind, _, htpos⟩
    have hdecomp := find?_updateFirst_decomp
      (fun r => decide (r.hp > 0) && r.position == c)
      (fun r => { r with pendingDamage := r.pendingDamage + PULSE_DAMAGE })
      s.quantars t hfind
    rcases hdecomp with ⟨pre, post, heq, hpre, hupd⟩
    refine ⟨pre, post, heq, ?_, ?_⟩
    · intro x hx
      have := hpre x hx
      intro hcontra
      simp only [Bool.and_eq_false_iff, decide_eq_false_iff_not, gt_iff_lt,
        beq_eq_false_iff_ne, ne_eq] at this
      rcases this with h | h
      · simp at h
        omega
      · exact h hcontra.2
    · simp only [resolvePulseAction, hq, if_neg hnle, hcell, ht]
      simp only [applyPulseHit, htpos]
      rw [hupd]
      simp [List.append_assoc, htpos]
  · intro c hcell ht
    simp only [resolvePulseAction, hq, if_neg hnle, hcell, ht]
    simp only [applyPulseHit]
    simp [List.append_assoc]
  · intro c hcell ht
    simp only [resolvePulseAction, hq, if_neg hnle, hcell, ht]
    simp only [applyPulseHit]
    simp [List.append_assoc]

/-- C5 witness: A1's westward beam from the initial state crosses the
board and fizzles, logging PulseFired then PulseMiss and changing
nothing else. -/
theorem resolvePulses_beam_spec_witness :
    resolvePulseAction (toResolutionState createInitialState) "A1" PulseDir.w =
      { toResolutionState createInitialState with
        events := [TurnEvent.pulseFired "A1" { x := 3, y := 6 } PulseDir.w,
                   TurnEvent.pulseMiss "A1"] } := by
  have h := (resolvePulses_beam_spec (toResolutionState createInitialState) "A1"
    PulseDir.w
    { id := "A1", owner := Player.A, position := { x := 3, y := 6 }, hp := 2,
      shielded := false, pendingDamage := 0 }
    (by decide) (by decide)).2.2.2.2.1 (by decide)
  simpa using h

/-! ## Phase 1 net effect on positions (towards C4) -/

theorem lookupMove_cons (m : IntendedMove) (ms : List IntendedMove) (id : String) :
    lookupMove (m :: ms) id =
      (match lookupMove ms id with
        | some x => some x
        | none => if m.qid = id then some m else none) := by
  have aux : ∀ (l : List IntendedMove) (a : Option IntendedMove),
      l.foldl (fun acc mv => if mv.qid = id then some mv else acc) a =
        (match l.foldl (fun acc mv => if mv.qid = id then some mv else acc) none with
          | some x => some x
          | none => a) := by
    intro l
    induction l with
    | nil => intro a; rfl
    | cons b l ih =>
        intro a
        simp only [List.foldl_cons]
        rw [ih (if b.qid = id then some b else a),
          ih (if b.qid = id then some b else none)]
        cases l.foldl (fun acc mv => if mv.qid = id then some mv else acc) none with
        | some x => rfl
        | none => by_cases hb : b.qid = id <;> simp [hb]
  simp only [lookupMove, List.foldl_cons]
  rw [aux ms (if m.qid = id then some m else none)]

theorem lookupMove_mem (id : String) :
    ∀ (ms : List IntendedMove) (m : IntendedMove), lookupMove ms id = some m →
      m ∈ ms ∧ m.qid = id := by
  intro ms
  induction ms with
  | nil => intro m h; cases h
  | cons x rest ih =>
      intro m h
      rw [lookupMove_cons] at h
      cases hr : lookupMove rest id with
      | some y =>
          rw [hr] at h
          have : y = m := by cases h; rfl
          subst this
          exact ⟨List.mem_cons_of_mem x (ih y hr).1, (ih y hr).2⟩
      | none =>
          rw [hr] at h
          by_cases hx : x.qid = id
          · rw [if_pos hx] at h
            have : x = m := by cases h; rfl
            subst this
            exact ⟨List.mem_cons_self x rest, hx⟩
          · rw [if_neg hx] at h
            cases h

theorem two_le_countP (p : IntendedMove → Bool) :
    ∀ (l : List IntendedMove) (a b : IntendedMove), a ∈ l → b ∈ l → a ≠ b →
      p a = true → p b = true → 2 ≤ l.countP p := by
  intro l
  induction l with
  | nil => intro a b ha _ _ _ _; cases ha
  | cons x rest ih =>
      intro a b ha hb hne pa pb
      rcases List.mem_cons.mp ha with rfl | ha' <;> rcases List.mem_cons.mp hb with rfl | hb'
      · exact absurd rfl hne
      · rw [List.countP_cons_of_pos p rest pa]
        have : 0 < rest.countP p := List.countP_pos_iff.mpr ⟨b, hb', pb⟩
        omega
      · rw [List.countP_cons_of_pos p rest pb]
        have : 0 < rest.countP p := List.countP_pos_iff.mpr ⟨a, ha', pa⟩
        omega
      · have h2 := ih a b ha' hb' hne pa pb
        rw [List.countP_cons]
        omega

theorem updateFirst_map_of_preserve {α : Type} (f : MQuantar → α) (p : MQuantar → Bool)
    (g : MQuantar → MQuantar) (hg : ∀ x, f (g x) = f x) :
    ∀ l : List MQuantar, (updateFirst p g l).map f = l.map f := by
  intro l
  induction l with
  | nil => rfl
  | cons a rest ih =>
      by_cases hp : p a = true
      · simp [updateFirst, hp, hg]
      · simp only [updateFirst, hp, Bool.false_eq_true, if_false, List.map_cons]
        rw [ih]

theorem updateFirst_id_map (g : MQuantar → MQuantar) (hg : ∀ x, (g x).id = x.id)
    (p : MQuantar → Bool) (l : List MQuantar) :
    (updateFirst p g l).map MQuantar.id = l.map MQuantar.id :=
  updateFirst_map_of_preserve MQuantar.id p g hg l

theorem updateFirst_eq_map_of_nodup (g : MQuantar → MQuantar) (qid : String) :
    ∀ l : List MQuantar, (l.map MQuantar.id).Nodup →
      updateFirst (fun r => r.id == qid) g l =
        l.map (fun r => if r.id = qid then g r else r) := by
  intro l
  induction l with
  | nil => intro _; rfl
  | cons a rest ih =>
      intro hnd
      simp only [List.map_cons, List.nodup_cons] at hnd
      by_cases ha : a.id = qid
      · simp only [updateFirst, ha, beq_self_eq_true, if_true, List.map_cons, if_pos rfl]
        have hrest : rest.map (fun r => if r.id = qid then g r else r) = rest := by
          conv_rhs => rw [← List.map_id rest]
          apply List.map_congr_left
          intro r hr
          have hne : r.id ≠ qid := by
            intro hriq
            exact hnd.1 (by
              rw [ha]
              exact List.mem_map.mpr ⟨r, hr, hriq⟩)
          simp [hne]
        rw [hrest]
      · simp only [updateFirst, List.map_cons, if_neg ha]
        rw [if_neg (by simpa using ha), ih hnd.2]

theorem applyMoves_fst (ms : List IntendedMove) :
    ∀ qs : List MQuantar, (qs.map MQuantar.id).Nodup →
      (applyMoves ms qs).1 = qs.map (fun r =>
        match lookupMove ms r.id with
        | some mv => { r with position := mv.dest }
        | none => r) := by
  induction ms with
  | nil =>
      intro qs _
      show qs = _
      have he : ∀ r : MQuantar, (match lookupMove [] r.id with
          | some mv => ({ r with position := mv.dest } : MQuantar)
          | none => r) = r := fun r => rfl
      simp only [he, List.map_id']
  | cons m rest ih =>
      intro qs hnd
      have hnd' : ((updateFirst (fun r => r.id == m.qid)
          (fun r => { r with position := m.dest }) qs).map MQuantar.id).Nodup := by
        rw [updateFirst_id_map (fun r => { r with position := m.dest }) (fun x => rfl)]
        exact hnd
      show (applyMoves rest (updateFirst (fun r => r.id == m.qid)
          (fun r => { r with position := m.dest }) qs)).1 = _
      rw [ih _ hnd']
      rw [updateFirst_eq_map_of_nodup (fun r => { r with position := m.dest }) m.qid qs hnd]
      rw [List.map_map]
      apply List.map_congr_left
      intro r _
      simp only [Function.comp_apply]
      by_cases hr : r.id = m.qid
      · rw [if_pos hr, lookupMove_cons]
        cases hl : lookupMove rest r.id with
        | some mv => simp [hl]
        | none => simp [hl, hr]
      · rw [if_neg hr, lookupMove_cons]
        cases hl : lookupMove rest r.id with
        | some mv => simp [hl]
        | none => simp [hl, show ¬ m.qid = r.id from fun hh => hr hh.symm]

theorem filterFinalMoves_nil (s : RState) (ctx : List IntendedMove) :
    ∀ ms : List IntendedMove, (filterFinalMoves s ctx ms).2 = [] →
      (filterFinalMoves s ctx ms).1 = ms ∧
      ∀ m ∈ ms, finalMoveCheck s ctx m = MoveCheck.allowed := by
  intro ms
  induction ms with
  | nil => intro _; exact ⟨rfl, by intro m hm; cases hm⟩
  | cons a rest ih =>
      intro h
      cases hc : finalMoveCheck s ctx a with
      | allowed =>
          simp only [filterFinalMoves, hc] at h ⊢
          refine ⟨by rw [(ih h).1], ?_⟩
          intro m hm
          rcases List.mem_cons.mp hm with rfl | hm'
          · exact hc
          · exact (ih h).2 m hm'
      | blocked r =>
          simp only [filterFinalMoves, hc] at h
          cases h

theorem filterCoreMoves_nil (s : RState) :
    ∀ ms : List IntendedMove, (filterCoreMoves s ms).2 = [] →
      (filterCoreMoves s ms).1 = ms := by
  intro ms
  induction ms with
  | nil => intro _; rfl
  | cons a rest ih =>
      intro h
      cases hc : isCoreBlocked s a with
      | true =>
          simp only [filterCoreMoves, hc, if_true] at h
          cases h
      | false =>
          simp only [filterCoreMoves, hc, Bool.false_eq_true, if_false] at h ⊢
          rw [ih h]

theorem finalMoveCheck_allowed_not_contested (s : RState) (ctx : List IntendedMove)
    (m : IntendedMove) (h : finalMoveCheck s ctx m = MoveCheck.allowed) :
    ¬ destCount ctx m.dest > 1 := by
  intro hgt
  unfold finalMoveCheck at h
  rw [if_pos hgt] at h
  cases h

theorem finalMoveCheck_allowed_occupant_moves (s : RState) (ctx : List IntendedMove)
    (m : IntendedMove) (occ : MQuantar)
    (h : finalMoveCheck s ctx m = MoveCheck.allowed)
    (hocc : s.quantars.find?
      (fun q => decide (q.hp > 0) && q.id != m.qid && q.position == m.dest) = some occ) :
    ∃ om, lookupMove ctx occ.id = some om := by
  have hng := finalMoveCheck_allowed_not_contested s ctx m h
  unfold finalMoveCheck at h
  rw [if_neg hng, hocc] at h
  simp only at h
  cases hl : lookupMove ctx occ.id with
  | some om => exact ⟨om, rfl⟩
  | none =>
      rw [hl] at h
      cases h

/-! ### Positions are only changed by Phase 1; events only grow -/

theorem resolveShields_positions (acts : List Action) :
    ∀ s : RState, (resolveShields s acts).quantars.map MQuantar.position =
      s.quantars.map MQuantar.position := by
  induction acts with
  | nil => intro s; rfl
  | cons a rest ih =>
      intro s
      cases a with
      | move qid dir => exact ih s
      | pulse qid dir => exact ih s
      | shield qid =>
          simp only [resolveShields]
          cases hq : getQuantarById s qid with
          | none => exact ih s
          | some q =>
              by_cases hhp : q.hp ≤ 0
              · simp only [if_pos hhp]
                exact ih s
              · simp only [if_neg hhp]
                rw [ih]
                exact updateFirst_map_of_preserve MQuantar.position
                  (fun r => r.id == qid) (fun r => { r with shielded := true })
                  (fun x => rfl) s.quantars

theorem applyPulseHit_positions (s : RState) (t : EntityRef) :
    (applyPulseHit s t).quantars.map MQuantar.position =
      s.quantars.map MQuantar.position := by
  cases t with
  | quant q =>
      exact updateFirst_map_of_preserve MQuantar.position
        (fun r => decide (r.hp > 0) && r.position == q.position)
        (fun r => { r with pendingDamage := r.pendingDamage + PULSE_DAMAGE })
        (fun x => rfl) s.quantars
  | coreOf p => cases p <;> rfl

theorem resolvePulseAction_positions (s : RState) (qid : String) (dir : PulseDir) :
    (resolvePulseAction s qid dir).quantars.map MQuantar.position =
      s.quantars.map MQuantar.position := by
  simp only [resolvePulseAction]
  split
  · rfl
  · split
    · rfl
    · split
      · split
        · exact applyPulseHit_positions _ _
        · rfl
      · rfl

theorem resolvePulses_positions (acts : List Action) :
    ∀ s : RState, (resolvePulses s acts).quantars.map MQuantar.position =
      s.quantars.map MQuantar.position := by
  induction acts with
  | nil => intro s; rfl
  | cons a rest ih =>
      intro s
      cases a with
      | move qid dir => exact ih s
      | shield qid => exact ih s
      | pulse qid dir =>
          simp only [resolvePulses]
          rw [ih]
          exact resolvePulseAction_positions s qid dir

theorem applyDamage_positions (s : RState) :
    (applyDamage s).quantars.map MQuantar.position =
      s.quantars.map MQuantar.position := by
  show (damageQuantars s.quantars).1.map MQuantar.position = _
  rw [damageQuantars_fst, List.map_map]
  apply List.map_congr_left
  intro q _
  simp only [Function.comp_apply, damageQuantar]
  by_cases hp : q.pendingDamage > 0 <;> simp [hp]

theorem resolveShields_events_extend (acts : List Action) :
    ∀ s : RState, ∃ t, (resolveShields s acts).events = s.events ++ t := by
  induction acts with
  | nil => intro s; exact ⟨[], by simp [resolveShields]⟩
  | cons a rest ih =>
      intro s
      cases a with
      | move qid dir => exact ih s
      | pulse qid dir => exact ih s
      | shield qid =>
          simp only [resolveShields]
          cases hq : getQuantarById s qid with
          | none => exact ih s
          | some q =>
              by_cases hhp : q.hp ≤ 0
              · simp only [if_pos hhp]
                exact ih s
              · simp only [if_neg hhp]
                rcases ih { s with
                    quantars := updateFirst (fun r => r.id == qid)
                      (fun r => { r with shielded := true }) s.quantars,
                    events := s.events ++ [TurnEvent.shieldActivated q.id] } with ⟨t, ht⟩
                exact ⟨[TurnEvent.shieldActivated q.id] ++ t, by
                  rw [ht]; simp [List.append_assoc]⟩

theorem resolvePulseAction_events_extend (s : RState) (qid : String) (dir : PulseDir) :
    ∃ t, (resolvePulseAction s qid dir).events = s.events ++ t := by
  simp only [resolvePulseAction]
  split
  · exact ⟨[], by simp⟩
  · split
    · exact ⟨[], by simp⟩
    · split
      · split
        · rename_i target _heq
          cases target with
          | quant r =>
              exact ⟨_, by simp only [applyPulseHit]; rw [List.append_assoc]⟩
          | coreOf p =>
              cases p <;>
                exact ⟨_, by simp only [applyPulseHit]; rw [List.append_assoc]⟩
        · exact ⟨_, by rw [List.append_assoc]⟩
      · exact ⟨_, by rw [List.append_assoc]⟩

theorem resolvePulses_events_extend (acts : List Action) :
    ∀ s : RState, ∃ t, (resolvePulses s acts).events = s.events ++ t := by
  induction acts with
  | nil => intro s; exact ⟨[], by simp [resolvePulses]⟩
  | cons a rest ih =>
      intro s
      cases a with
      | move qid dir => exact ih s
      | shield qid => exact ih s
      | pulse qid dir =>
          simp only [resolvePulses]
          rcases resolvePulseAction_events_extend s qid dir with ⟨t1, ht1⟩
          rcases ih (resolvePulseAction s qid dir) with ⟨t2, ht2⟩
          exact ⟨t1 ++ t2, by rw [ht2, ht1]; simp [List.append_assoc]⟩

theorem applyDamage_events_extend (s : RState) :
    ∃ t, (applyDamage s).events = s.events ++ t :=
  ⟨_, by simp only [applyDamage]; rw [List.append_assoc, List.append_assoc]⟩

theorem removeDeadEntities_events_extend (s : RState) :
    ∃ t, (removeDeadEntities s).events = s.events ++ t :=
  ⟨_, by simp only [removeDeadEntities]; rw [List.append_assoc, List.append_assoc]⟩

theorem runPhases_events_extend (input : TurnInput) :
    ∃ t, (runPhases input).events =
      (resolveMoves (toResolutionState input.state)
        (input.actionsA ++ input.actionsB)).events ++ t := by
  obtain ⟨t1, h1⟩ := resolveShields_events_extend (input.actionsA ++ input.actionsB)
    (resolveMoves (toResolutionState input.state) (input.actionsA ++ input.actionsB))
  obtain ⟨t2, h2⟩ := resolvePulses_events_extend (input.actionsA ++ input.actionsB)
    (resolveShields (resolveMoves (toResolutionState input.state)
      (input.actionsA ++ input.actionsB)) (input.actionsA ++ input.actionsB))
  obtain ⟨t3, h3⟩ := applyDamage_events_extend
    (resolvePulses (resolveShields (resolveMoves (toResolutionState input.state)
      (input.actionsA ++ input.actionsB)) (input.actionsA ++ input.actionsB))
      (input.actionsA ++ input.actionsB))
  obtain ⟨t4, h4⟩ := removeDeadEntities_events_extend
    (applyDamage (resolvePulses (resolveShields (resolveMoves (toResolutionState input.state)
      (input.actionsA ++ input.actionsB)) (input.actionsA ++ input.actionsB))
      (input.actionsA ++ input.actionsB)))
  refine ⟨t1 ++ (t2 ++ (t3 ++ t4)), ?_⟩
  show (removeDeadEntities (applyDamage (resolvePulses (resolveShields
    (resolveMoves (toResolutionState input.state) (input.actionsA ++ input.actionsB))
    (input.actionsA ++ input.actionsB)) (input.actionsA ++ input.actionsB)))).events = _
  rw [h4, h3, h2, h1]
  simp [List.append_assoc]

/-- After a Phase 1 in which no move was blocked, live Quantars still
occupy pairwise-distinct cells: (1) two applied moves cannot share a
destination (the contest check would have blocked both), (2) an applied
move cannot land on a stationary Quantar (the stationary check would have
blocked it), and stationary Quantars were distinct to begin with. -/
theorem resolveMoves_positions_nodup (s : RState) (acts : List Action)
    (hids : (s.quantars.map MQuantar.id).Nodup)
    (hposPW : s.quantars.Pairwise (fun a b => a.position ≠ b.position))
    (hlive : ∀ r ∈ s.quantars, 0 < r.hp)
    (hF : (filterFinalMoves s (filterCoreMoves s (computeIntendedMoves s acts).1).1
            (filterCoreMoves s (computeIntendedMoves s acts).1).1).2 = []) :
    ((resolveMoves s acts).quantars.map MQuantar.position).Nodup := by
  obtain ⟨hF1, hall⟩ := filterFinalMoves_nil s
    (filterCoreMoves s (computeIntendedMoves s acts).1).1
    (filterCoreMoves s (computeIntendedMoves s acts).1).1 hF
  have hq : (resolveMoves s acts).quantars =
      (applyMoves (filterCoreMoves s (computeIntendedMoves s acts).1).1 s.quantars).1 := by
    show (applyMoves (filterFinalMoves s
      (filterCoreMoves s (computeIntendedMoves s acts).1).1
      (filterCoreMoves s (computeIntendedMoves s acts).1).1).1 s.quantars).1 = _
    rw [hF1]
  rw [hq, applyMoves_fst (filterCoreMoves s (computeIntendedMoves s acts).1).1
    s.quantars hids, List.map_map]
  have hposnd : (s.quantars.map MQuantar.position).Nodup :=
    List.Pairwise.map MQuantar.position (fun a b h => h) hposPW
  have hinj := List.inj_on_of_nodup_map hposnd
  have hidPW : s.quantars.Pairwise (fun a b => a.id ≠ b.id) :=
    List.pairwise_map.mp hids
  have hpair : s.quantars.Pairwise (fun a b =>
      (MQuantar.position ∘ fun r =>
        match lookupMove (filterCoreMoves s (computeIntendedMoves s acts).1).1 r.id with
        | some mv => { r with position := mv.dest }
        | none => r) a ≠
      (MQuantar.position ∘ fun r =>
        match lookupMove (filterCoreMoves s (computeIntendedMoves s acts).1).1 r.id with
        | some mv => { r with position := mv.dest }
        | none => r) b) := by
    have key : ∀ a ∈ s.quantars, ∀ b ∈ s.quantars, a.id ≠ b.id →
        a.position ≠ b.position →
        (MQuantar.position ∘ fun r =>
          match lookupMove (filterCoreMoves s (computeIntendedMoves s acts).1).1 r.id with
          | some mv => { r with position := mv.dest }
          | none => r) a ≠
        (MQuantar.position ∘ fun r =>
          match lookupMove (filterCoreMoves s (computeIntendedMoves s acts).1).1 r.id with
          | some mv => { r with position := mv.dest }
          | none => r) b := by
      intro a hamem b hbmem hidne hposne
      simp only [Function.comp_apply]
      cases hla : lookupMove (filterCoreMoves s (computeIntendedMoves s acts).1).1 a.id with
      | some ma =>
          cases hlb : lookupMove (filterCoreMoves s (computeIntendedMoves s acts).1).1 b.id with
          | some mb =>
              simp only
              intro heq
              obtain ⟨hmaV, hmaqid⟩ := lookupMove_mem a.id _ ma hla
              obtain ⟨hmbV, hmbqid⟩ := lookupMove_mem b.id _ mb hlb
              have hnm : ma ≠ mb := by
                intro h
                exact hidne (by rw [← hmaqid, h, hmbqid])
              have h2 : 2 ≤ destCount
                  (filterCoreMoves s (computeIntendedMoves s acts).1).1 ma.dest := by
                apply two_le_countP (fun m => m.dest == ma.dest) _ ma mb hmaV hmbV hnm
                · simp
                · simp [← heq]
              have := finalMoveCheck_allowed_not_contested s _ ma (hall ma hmaV)
              omega
          | none =>
              simp only
              intro heq
              obtain ⟨hmaV, hmaqid⟩ := lookupMove_mem a.id _ ma hla
              have hbid : b.id ≠ ma.qid := by rw [hmaqid]; exact fun h => hidne h.symm
              have hsome : (s.quantars.find? (fun r =>
                  decide (r.hp > 0) && r.id != ma.qid && r.position == ma.dest)).isSome := by
                rw [List.find?_isSome]
                refine ⟨b, hbmem, ?_⟩
                simp [hlive b hbmem, hbid, ← heq]
              obtain ⟨occ, hocc⟩ := Option.isSome_iff_exists.mp hsome
              obtain ⟨om, hlom⟩ := finalMoveCheck_allowed_occupant_moves s _ ma occ
                (hall ma hmaV) hocc
              have hoccmem := List.mem_of_find?_eq_some hocc
              have hoccpred := List.find?_some hocc
              simp only [Bool.and_eq_true, decide_eq_true_eq, bne_iff_ne, ne_eq,
                beq_iff_eq, gt_iff_lt] at hoccpred
              have hoccb : occ = b := hinj hoccmem hbmem (by rw [hoccpred.2, ← heq])
              rw [hoccb, hlb] at hlom
              cases hlom
      | none =>
          cases hlb : lookupMove (filterCoreMoves s (computeIntendedMoves s acts).1).1 b.id with
          | some mb =>
              simp only
              intro heq
              obtain ⟨hmbV, hmbqid⟩ := lookupMove_mem b.id _ mb hlb
              have haid : a.id ≠ mb.qid := by rw [hmbqid]; exact hidne
              have hsome : (s.quantars.find? (fun r =>
                  decide (r.hp > 0) && r.id != mb.qid && r.position == mb.dest)).isSome := by
                rw [List.find?_isSome]
                refine ⟨a, hamem, ?_⟩
                simp [hlive a hamem, haid, heq]
              obtain ⟨occ, hocc⟩ := Option.isSome_iff_exists.mp hsome
              obtain ⟨om, hlom⟩ := finalMoveCheck_allowed_occupant_moves s _ mb occ
                (hall mb hmbV) hocc
              have hoccmem := List.mem_of_find?_eq_some hocc
              have hoccpred := List.find?_some hocc
              simp only [Bool.and_eq_true, decide_eq_true_eq, bne_iff_ne, ne_eq,
                beq_iff_eq, gt_iff_lt] at hoccpred
              have hocca : occ = a := hinj hoccmem hamem (by rw [hoccpred.2, heq])
              rw [hocca, hla] at hlom
              cases hlom
          | none =>
              simp only
              exact hposne
    exact List.Pairwise.imp_of_mem
      (fun {a b} ha hb hr => key a ha b hb hr.1 hr.2) (hidPW.and hposPW)
  exact List.Pairwise.map _ (fun a b h => h) hpair

/-! ## Distinct cells after resolution (C4) -/

/-- C4 amended: if the input state is well-formed (in particular its live
Quantars occupy pairwise-distinct cells, none on a Core cell) and the
resolved turn blocked no move (no MoveBlocked event in the log), the
returned state's Quantars again occupy pairwise-distinct cells. The
counterexample shows the extra no-blocked-move hypothesis is necessary. -/
theorem resolveTurn_distinct_cells (input : TurnInput)
    (hwf : WellFormedState input.state)
    (hnb : ∀ e ∈ (resolveTurn input).log.events, evKind e ≠ EvKind.moveBlockedK) :
    ((resolveTurn input).state.quantars.map Quantar.position).Nodup := by
  have hids := hwf.1
  have hhp := hwf.2.1
  have hpw := hwf.2.2.2.1
  have hids0 : ((toResolutionState input.state).quantars.map MQuantar.id).Nodup := by
    show ((input.state.quantars.map toMutableQuantar).map MQuantar.id).Nodup
    rw [List.map_map]
    exact hids
  have hpos0 : (toResolutionState input.state).quantars.Pairwise
      (fun a b => a.position ≠ b.position) := by
    show (input.state.quantars.map toMutableQuantar).Pairwise _
    rw [List.pairwise_map]
    exact hpw.imp (fun h => h)
  have hlive0 : ∀ r ∈ (toResolutionState input.state).quantars, 0 < r.hp := by
    intro r hr
    rcases List.mem_map.mp hr with ⟨q, hq, rfl⟩
    exact hhp q hq
  have hF : (filterFinalMoves (toResolutionState input.state)
      (filterCoreMoves (toResolutionState input.state)
        (computeIntendedMoves (toResolutionState input.state)
          (input.actionsA ++ input.actionsB)).1).1
      (filterCoreMoves (toResolutionState input.state)
        (computeIntendedMoves (toResolutionState input.state)
          (input.actionsA ++ input.actionsB)).1).1).2 = [] := by
    by_contra hne
    obtain ⟨e, he⟩ := List.exists_mem_of_ne_nil _ hne
    have hkind := evts_filterFinalMoves (toResolutionState input.state) _ _ e he
    have hmoves : e ∈ (resolveMoves (toResolutionState input.state)
        (input.actionsA ++ input.actionsB)).events := by
      have hevents : (resolveMoves (toResolutionState input.state)
          (input.actionsA ++ input.actionsB)).events =
        (toResolutionState input.state).events ++
          (computeIntendedMoves (toResolutionState input.state)
            (input.actionsA ++ input.actionsB)).2 ++
          (filterCoreMoves (toResolutionState input.state)
            (computeIntendedMoves (toResolutionState input.state)
              (input.actionsA ++ input.actionsB)).1).2 ++
          (filterFinalMoves (toResolutionState input.state)
            (filterCoreMoves (toResolutionState input.state)
              (computeIntendedMoves (toResolutionState input.state)
                (input.actionsA ++ input.actionsB)).1).1
            (filterCoreMoves (toResolutionState input.state)
              (computeIntendedMoves (toResolutionState input.state)
                (input.actionsA ++ input.actionsB)).1).1).2 ++
          (applyMoves (filterFinalMoves (toResolutionState input.state)
            (filterCoreMoves (toResolutionState input.state)
              (computeIntendedMoves (toResolutionState input.state)
                (input.actionsA ++ input.actionsB)).1).1
            (filterCoreMoves (toResolutionState input.state)
              (computeIntendedMoves (toResolutionState input.state)
                (input.actionsA ++ input.actionsB)).1).1).1
            (toResolutionState input.state).quantars).2 := rfl
      rw [hevents]
      simp only [List.append_assoc, List.mem_append]
      exact Or.inr (Or.inr (Or.inr (Or.inl he)))
    obtain ⟨t, ht⟩ := runPhases_events_extend input
    have hrun : e ∈ (runPhases input).events := by
      rw [ht]
      exact List.mem_append.mpr (Or.inl hmoves)
    have hlog : e ∈ (resolveTurn input).log.events := by
      rw [resolveTurn_log_events_eq]
      exact List.mem_append.mpr (Or.inl hrun)
    exact hnb e hlog hkind
  have hmoves := resolveMoves_positions_nodup (toResolutionState input.state)
    (input.actionsA ++ input.actionsB) hids0 hpos0 hlive0 hF
  have hsub : ((runPhases input).quantars.map MQuantar.position).Sublist
      ((resolveMoves (toResolutionState input.state)
        (input.actionsA ++ input.actionsB)).quantars.map MQuantar.position) := by
    have hfil : (runPhases input).quantars =
        (applyDamage (resolvePulses (resolveShields
          (resolveMoves (toResolutionState input.state)
            (input.actionsA ++ input.actionsB)) (input.actionsA ++ input.actionsB))
          (input.actionsA ++ input.actionsB))).quantars.filter
            (fun r => decide (r.hp > 0)) := rfl
    rw [hfil]
    have hsub1 := List.Sublist.map MQuantar.position
      (List.filter_sublist (l := (applyDamage (resolvePulses (resolveShields
        (resolveMoves (toResolutionState input.state)
          (input.actionsA ++ input.actionsB)) (input.actionsA ++ input.actionsB))
        (input.actionsA ++ input.actionsB))).quantars) (p := fun r => decide (r.hp > 0)))
    rw [applyDamage_positions, resolvePulses_positions, resolveShields_positions] at hsub1
    exact hsub1
  have hnodup := hmoves.sublist hsub
  have hfin : (resolveTurn input).state.quantars.map Quantar.position =
      (runPhases input).quantars.map MQuantar.position := by
    show ((runPhases input).quantars.map toImmutableQuantar).map Quantar.position = _
    rw [List.map_map]
    rfl
  rw [hfin]
  exact hnodup

/-- State for the C4 counterexample: four live Quantars on distinct
cells, none on a Core cell. -/
def c4State : GameState :=
  { turn := 2,
    phase := GamePhase.playing,
    quantars := [
      { id := "A1", owner := Player.A, position := { x := 0, y := 0 }, hp := 2 },
      { id := "A2", owner := Player.A, position := { x := 1, y := 0 }, hp := 2 },
      { id := "A3", owner := Player.A, position := { x := 2, y := 1 }, hp := 2 },
      { id := "B1", owner := Player.B, position := { x := 7, y := 7 }, hp := 2 }],
    coreA := { owner := Player.A, position := { x := 4, y := 8 }, hp := 5 },
    coreB := { owner := Player.B, position := { x := 4, y := 0 }, hp := 5 },
    winner := none }

/-- The C4 counterexample turn: A2 and A3 contest (2,0) and are both
blocked, so A2 stays on (1,0); A1's move into (1,0) is allowed because
A2 *intended* to move away. -/
def c4Input : TurnInput :=
  { state := c4State,
    actionsA := [Action.move "A1" Direction.east, Action.move "A2" Direction.east,
      Action.move "A3" Direction.north],
    actionsB := [] }

/-- C4 counterexample: from a well-formed state with pairwise-distinct
cells, resolveTurn returns A1 and A2 sharing cell (1,0): a Quantar whose
destination's occupant had a collision-blocked move ends the turn on the
occupant's cell. -/
theorem resolveTurn_shared_cell_cex :
    WellFormedState c4State ∧
    (resolveTurn c4Input).state.quantars.map Quantar.position =
      [{ x := 1, y := 0 }, { x := 1, y := 0 }, { x := 2, y := 1 }, { x := 7, y := 7 }] ∧
    ¬ ((resolveTurn c4Input).state.quantars.map Quantar.position).Nodup := by
  refine ⟨⟨by decide, by decide, by decide, by decide, by decide, by decide,
    by decide, by decide, by decide, by decide, by decide, by decide, by decide⟩,
    by decide, by decide⟩

/-- The C4 witness turn: a single unobstructed move, no blocks. -/
def c4WitnessInput : TurnInput :=
  { state := c4State,
    actionsA := [Action.move "A1" Direction.south],
    actionsB := [] }

/-- C4 amended witness: with no move blocked, the resolved state's
Quantars sit on pairwise-distinct cells. -/
theorem resolveTurn_distinct_cells_witness :
    ((resolveTurn c4WitnessInput).state.quantars.map Quantar.position).Nodup :=
  resolveTurn_distinct_cells c4WitnessInput
    ⟨by decide, by decide, by decide, by decide, by decide, by decide,
     by decide, by decide, by decide, by decide, by decide, by decide, by decide⟩
    (by decide)

end Quantaris
